import Mathlib

/-!
# Verification of the cobra command-tree resolution engine

A shallow embedding of the core of the `cobra` repository: the command tree,
the `Find`/`Traverse` resolvers, the suggestion engine, the flag-group
validator and the completion-hook registry, together with theorems settling
the specification claims.

Strings are Go byte strings of ASCII text; we model every string operation
on the underlying character list (`String.data`) so that all definitions
evaluate by kernel reduction.  Go maps carry no iteration order; they are
modelled as association lists, and every theorem quantifies over the list
order wherever the source iterates a map.
-/

/-! ## String helpers (models of the `strings` package operations used) -/

/-- Model of `strings.HasPrefix`. -/
def strHasPfx (s pre : String) : Bool :=
  List.isPrefixOf pre.data s.data

/-- Model of `strings.Contains(s, string(c))` for a one-character pattern. -/
def strContainsChar (s : String) (c : Char) : Bool :=
  s.data.contains c

/-- Model of Go string slicing `s[n:]` (ASCII, so bytes = chars). -/
def strDrop (s : String) (n : Nat) : String :=
  ⟨s.data.drop n⟩

/-- Model of Go string slicing `s[:n]` (ASCII, so bytes = chars). -/
def strTake (s : String) (n : Nat) : String :=
  ⟨s.data.take n⟩

/-- Model of Go `len(s)` (ASCII, so bytes = chars). -/
def strLen (s : String) : Nat :=
  s.data.length

/-- ASCII lower-casing of a character, as `strings.ToLower` does per byte. -/
def charLower (c : Char) : Char :=
  if 'A' ≤ c ∧ c ≤ 'Z' then Char.ofNat (c.toNat + 32) else c

/-- Model of `strings.ToLower` on ASCII strings. -/
def strLower (s : String) : String :=
  ⟨s.data.map charLower⟩

/-- Model of `strings.EqualFold` on ASCII strings. -/
def strEqFold (a b : String) : Bool :=
  strLower a == strLower b

/-- Splits a character list at every occurrence of `sep`. -/
def splitChar (sep : Char) : List Char → List (List Char)
  | [] => [[]]
  | c :: cs =>
    if c = sep then [] :: splitChar sep cs
    else
      match splitChar sep cs with
      | t :: ts => (c :: t) :: ts
      | [] => [[c]]

/-- Model of `strings.Split(s, " ")`, used to recover the member names of a
flag-group signature. -/
def splitSpace (s : String) : List String :=
  (splitChar ' ' s.data).map (fun l => ⟨l⟩)

/-- Byte-lexicographic comparison, as used by `sort.Strings`. -/
def strLe (a b : String) : Bool :=
  a.data < b.data || a.data = b.data

/-- Insert into a `strLe`-sorted list. -/
def strInsert (x : String) : List String → List String
  | [] => [x]
  | y :: ys => if strLe x y then x :: y :: ys else y :: strInsert x ys

/-- Model of `sort.Strings`: lexicographic insertion sort. -/
def sortStrings : List String → List String
  | [] => []
  | x :: xs => strInsert x (sortStrings xs)

/-! ## Flags

A `FlagDef` models a `pflag.Flag` registration as seen by this core: its
name, optional single-character shorthand (`""` when absent), the
`NoOptDefVal` no-value default, the monotonic `Changed` marker, and the
annotation mapping (`Annotations`), an association list from annotation key
to a list of strings.  A flag view (`pflag.FlagSet`) is a list of such
records; the list order stands for the set's iteration order. -/

structure FlagDef where
  name : String
  shorthand : String
  noOptDefVal : String
  changed : Bool
  hidden : Bool
  annotations : List (String × List String)
deriving DecidableEq

/-- Model of `FlagSet.Lookup`. -/
def lookupFlag (fs : List FlagDef) (name : String) : Option FlagDef :=
  fs.find? (fun f => f.name == name)

/-- Model of `FlagSet.ShorthandLookup`. -/
def shorthandLookup (fs : List FlagDef) (sh : String) : Option FlagDef :=
  fs.find? (fun f => f.shorthand == sh)

/-- Model of an `Annotations[key]` map access (`none` when the key is
absent). -/
def annLookup (f : FlagDef) (key : String) : Option (List String) :=
  (f.annotations.find? (fun p => p.1 == key)).map (·.2)

/-- `hasNoOptDefVal` from the source: the named flag exists and declares a
non-empty no-value default. -/
def hasNoOptDefVal (name : String) (fs : List FlagDef) : Bool :=
  match lookupFlag fs name with
  | none => false
  | some f => f.noOptDefVal != ""

/-- `shortNoOptDefVal` from the source: the flag with the given first
character as shorthand exists and declares a non-empty no-value default. -/
def shortNoOptDefVal (name : String) (fs : List FlagDef) : Bool :=
  if strLen name = 0 then false
  else
    match shorthandLookup fs (strTake name 1) with
    | none => false
    | some f => f.noOptDefVal != ""

/-- `hasAllFlags` from `flag_groups.go`: every listed name resolves in the
flag view. -/
def hasAllFlags (fs : List FlagDef) (flagnames : List String) : Bool :=
  flagnames.all (fun n => (lookupFlag fs n).isSome)

/-! ## The command tree

`Command` models the cobra `Command` struct restricted to the fields this
core reads: `Use`, `Aliases`, `SuggestFor`, whether a `Run` function is
declared, `Deprecated`, `Hidden`, the `helpCommand` back-pointer (modelled
by the designated child's name, standing in for Go pointer identity),
`DisableFlagParsing`, `DisableSuggestions`, `SuggestionsMinimumDistance`,
the resolved full flag view (`Flags()` after `mergePersistentFlags`), and
the owned child list `commands`. -/

inductive Command where
  | mk
      (use : String)
      (aliases : List String)
      (suggestFor : List String)
      (hasRun : Bool)
      (deprecated : String)
      (hidden : Bool)
      (helpCommandName : Option String)
      (disableFlagParsing : Bool)
      (disableSuggestions : Bool)
      (suggestionsMinimumDistance : Int)
      (flags : List FlagDef)
      (commands : List Command)

def Command.use : Command → String
  | .mk u _ _ _ _ _ _ _ _ _ _ _ => u

def Command.aliases : Command → List String
  | .mk _ a _ _ _ _ _ _ _ _ _ _ => a

def Command.suggestFor : Command → List String
  | .mk _ _ s _ _ _ _ _ _ _ _ _ => s

def Command.hasRun : Command → Bool
  | .mk _ _ _ r _ _ _ _ _ _ _ _ => r

def Command.deprecated : Command → String
  | .mk _ _ _ _ d _ _ _ _ _ _ _ => d

def Command.hidden : Command → Bool
  | .mk _ _ _ _ _ h _ _ _ _ _ _ => h

def Command.helpCommandName : Command → Option String
  | .mk _ _ _ _ _ _ hc _ _ _ _ _ => hc

def Command.disableFlagParsing : Command → Bool
  | .mk _ _ _ _ _ _ _ dfp _ _ _ _ => dfp

def Command.disableSuggestions : Command → Bool
  | .mk _ _ _ _ _ _ _ _ ds _ _ _ => ds

def Command.suggestionsMinimumDistance : Command → Int
  | .mk _ _ _ _ _ _ _ _ _ smd _ _ => smd

def Command.flags : Command → List FlagDef
  | .mk _ _ _ _ _ _ _ _ _ _ fl _ => fl

def Command.commands : Command → List Command
  | .mk _ _ _ _ _ _ _ _ _ _ _ cs => cs

/-- `Command.Name()`: the `Use` line up to the first space. -/
def Command.name (c : Command) : String :=
  ⟨c.use.data.takeWhile (fun ch => ch ≠ ' ')⟩

/-- Modelled from the spec: `commandNameMatches` is not under `src/`; the
spec resolves a candidate "by exact name or alias match", and
`defaultCaseInsensitive = false` in `cobra.go`, so the match is exact
string equality. -/
def commandNameMatches (s n : String) : Bool :=
  s == n

/-- `Command.HasAlias`. -/
def Command.hasAlias (c : Command) (s : String) : Bool :=
  c.aliases.any (fun a => commandNameMatches a s)

/-- `Command.HasNameOrAliasPrefix` (the `commandCalledAs` bookkeeping it
performs does not affect resolution and is omitted). -/
def Command.hasNameOrAliasPfx (c : Command) (pfx : String) : Bool :=
  strHasPfx c.name pfx || c.aliases.any (fun a => strHasPfx a pfx)

/-- `Command.Runnable()`: whether a `Run`/`RunE` function is declared. -/
def Command.runnable (c : Command) : Bool :=
  c.hasRun

/-! ## Resolver: `findNext`, `Find`'s inner resolution, `Traverse`

`EnablePrefixMatching` is a package-level toggle (its declaration is not
under `src/`; `defaultPrefixMatching = false` in `cobra.go`); it is passed
explicitly as the `epm` argument. -/

/-- The child-scanning loop of `Command.findNext`: try an exact name or
alias match on each child in order; with prefix matching enabled, collect
every child whose name or alias has the candidate as a prefix, and accept
the collection only when it is a singleton. -/
def findNextGo (epm : Bool) (next : String) : List Command → List Command → Option Command
  | [], ms =>
    match ms with
    | [m] => some m
    | _ => none
  | cmd :: rest, ms =>
    if commandNameMatches cmd.name next || cmd.hasAlias next then some cmd
    else if epm && cmd.hasNameOrAliasPfx next then findNextGo epm next rest (ms ++ [cmd])
    else findNextGo epm next rest ms

/-- `Command.findNext` (the `commandCalledAs` bookkeeping does not affect
resolution and is omitted; `nil` becomes `none`). -/
def findNext (epm : Bool) (c : Command) (next : String) : Option Command :=
  findNextGo epm next c.commands []

/-- `stripFlags` (named `stripFlag` in the source): skip value-consuming
flag tokens and return the first candidate command token, stopping at
`--`.  The source's loop returns its collected tokens as soon as the first
candidate is appended, so the result is empty or a singleton. -/
def stripFlags (c : Command) : List String → List String
  | [] => []
  | s :: args =>
    if s == "--" then []
    else if (strHasPfx s "--" && !strContainsChar s '=' && !hasNoOptDefVal (strDrop s 2) c.flags)
        || (strHasPfx s "-" && !strContainsChar s '=' && strLen s == 2
              && !shortNoOptDefVal (strDrop s 1) c.flags) then
      match args with
      | [] => []
      | _ :: rest => stripFlags c rest
    else if s != "" && !strHasPfx s "=" then [s]
    else []

/-- The position-scanning loop of `Command.argsMinusFirstX`, carrying the
already-scanned prefix.  (The source refers to `shortHasNoOptDefVal`, the
repository's `shortNoOptDefVal`.) -/
def amfxGo (c : Command) (x : String) : List String → List String → List String
  | acc, [] => acc
  | acc, s :: rest =>
    if s == "--" then acc ++ s :: rest
    else if (strHasPfx s "--" && !strContainsChar s '=' && !hasNoOptDefVal (strDrop s 2) c.flags)
        || (strHasPfx s "-" && !strContainsChar s '=' && strLen s == 2
              && !shortNoOptDefVal (strDrop s 1) c.flags) then
      match rest with
      | [] => acc ++ [s]
      | v :: rest' => amfxGo c x (acc ++ [s, v]) rest'
    else if !strHasPfx s "-" && s == x then acc ++ rest
    else amfxGo c x (acc ++ [s]) rest

/-- `Command.argsMinusFirstX`: remove the single first occurrence of `x`
as a non-flag token, leaving flags untouched. -/
def argsMinusFirstX (c : Command) (args : List String) (x : String) : List String :=
  match args with
  | [] => args
  | _ => amfxGo c x [] args

/-- Every result of the `findNext` scanning loop comes from the scanned
list or the accumulated prefix matches. -/
theorem findNextGo_mem {epm : Bool} {next : String} :
    ∀ {l acc : List Command} {cmd : Command},
      findNextGo epm next l acc = some cmd → cmd ∈ acc ∨ cmd ∈ l := by
  intro l
  induction l with
  | nil =>
    intro acc cmd h
    simp only [findNextGo] at h
    split at h
    · exact Or.inl (by simp_all)
    · exact absurd h (by simp)
  | cons hd tl ih =>
    intro acc cmd h
    simp only [findNextGo] at h
    split_ifs at h with h₁ h₂
    · exact Or.inr (by simp_all)
    · rcases ih h with hm | hm
      · rcases List.mem_append.mp hm with hm | hm
        · exact Or.inl hm
        · exact Or.inr (by simp at hm; simp [hm])
      · exact Or.inr (List.mem_cons_of_mem _ hm)
    · rcases ih h with hm | hm
      · exact Or.inl hm
      · exact Or.inr (List.mem_cons_of_mem _ hm)

/-- A resolved child is one of the node's children. -/
theorem findNext_mem {epm : Bool} {c cmd : Command} {next : String}
    (h : findNext epm c next = some cmd) : cmd ∈ c.commands := by
  rcases findNextGo_mem h with hm | hm
  · simp at hm
  · exact hm

theorem sizeOf_mem_commands {cmd c : Command} (h : cmd ∈ c.commands) :
    sizeOf cmd < sizeOf c := by
  cases c with
  | mk u a s r d hid hc dfp ds smd fl cs =>
    simp only [Command.commands] at h
    have := List.sizeOf_lt_of_mem h
    simp [Command.mk.sizeOf_spec]
    omega

/-- The recursive `innerfind` closure inside `Command.Find`: locate the
first candidate token past the flags, resolve it with `findNext`, and
either descend with that token removed or finish at the current node with
the untouched remaining args. -/
def innerfind (epm : Bool) (c : Command) (innerArgs : List String) : Command × List String :=
  match stripFlags c innerArgs with
  | [] => (c, innerArgs)
  | nextSubCmd :: _ =>
    match h : findNext epm c nextSubCmd with
    | some cmd => innerfind epm cmd (argsMinusFirstX c innerArgs nextSubCmd)
    | none => (c, innerArgs)
termination_by sizeOf c
decreasing_by exact sizeOf_mem_commands (findNext_mem h)

/-- `isFlagArgs` from the source. -/
def isFlagArgs (arg : String) : Bool :=
  (3 ≤ strLen arg && strTake arg 2 == "--") ||
  (2 ≤ strLen arg && strTake arg 1 == "-" && strTake (strDrop arg 1) 1 != "-")

/-- The left-to-right scanning loop of `Command.Traverse`, carrying the
buffered flag tokens and the in-flag-mode marker.  Returns `none` when the
loop finishes without descending (either the args are exhausted or the
first looked-up token is not a child), and `some (flags, child, rest)`
when a child is found, with the flags to parse and the remaining args.
The source keeps `inFlag` set once entered (`inFlag = true` in the
buffering case). -/
def traverseScan (epm : Bool) (c : Command) :
    List String → List String → Bool → Option (List String × Command × List String)
  | [], _, _ => none
  | arg :: rest, fl, inFlag =>
    if strHasPfx arg "--" && !strContainsChar arg '=' then
      traverseScan epm c rest (fl ++ [arg]) (!hasNoOptDefVal (strDrop arg 2) c.flags)
    else if strHasPfx arg "-" && !strContainsChar arg '=' && strLen arg == 2
        && !shortNoOptDefVal (strDrop arg 1) c.flags then
      traverseScan epm c rest (fl ++ [arg]) true
    else if inFlag then
      traverseScan epm c rest (fl ++ [arg]) true
    else if isFlagArgs arg then
      traverseScan epm c rest (fl ++ [arg]) inFlag
    else
      match findNext epm c arg with
      | none => none
      | some cmd => some (fl, cmd, rest)

theorem traverseScan_rest_lt {epm : Bool} {c : Command} :
    ∀ {args fl : List String} {b : Bool} {out : List String × Command × List String},
      traverseScan epm c args fl b = some out → out.2.2.length < args.length := by
  intro args
  induction args with
  | nil => intro fl b out h; simp [traverseScan] at h
  | cons arg rest ih =>
    intro fl b out h
    unfold traverseScan at h
    split at h
    · exact Nat.lt_succ_of_lt (ih h)
    · split at h
      · exact Nat.lt_succ_of_lt (ih h)
      · split at h
        · exact Nat.lt_succ_of_lt (ih h)
        · split at h
          · exact Nat.lt_succ_of_lt (ih h)
          · split at h
            · exact absurd h (by simp)
            · simp only [Option.some_inj] at h
              subst h
              simp

/-- `Command.Traverse`, with the external flag parser (`pflag`'s
`ParseFlags`, an external collaborator) supplied as `parse`, which returns
`some err` on a parse error. -/
def Traverse (parse : Command → List String → Option String) (epm : Bool)
    (c : Command) (args : List String) : Option Command × List String × Option String :=
  match h : traverseScan epm c args [] false with
  | none => (some c, args, none)
  | some (fl, cmd, rest) =>
    match parse c fl with
    | some err => (none, args, some err)
    | none => Traverse parse epm cmd rest
termination_by args.length
decreasing_by exact traverseScan_rest_lt h

/-! ## Suggestion engine -/

/-- `Command.IsAvailableCommand`, with the Go parent pointer supplied as
the `parent` argument and the `c.Parent().helpCommand == c` pointer
identity modelled by the parent's designated help-command name. -/
def isAvailableCommand (parent : Option Command) (c : Command) : Bool :=
  if c.deprecated != "" || c.hidden then false
  else if (match parent with
           | some p => p.helpCommandName == some c.name
           | none => false) then false
  else if c.runnable || c.commands.attach.any (fun sub => isAvailableCommand (some c) sub.1) then
    true
  else false
termination_by sizeOf c
decreasing_by all_goals exact sizeOf_mem_commands sub.2

/-- `Command.HasAvailableSubCommands`. -/
def hasAvailableSubCommands (c : Command) : Bool :=
  c.commands.any (fun sub => isAvailableCommand (some c) sub)

/-- Modelled from the spec: the Levenshtein edit distance on character
lists (the `ld` helper is not under `src/`; the spec asks for the
"case-insensitive Levenshtein distance" between token and child name). -/
def levList : List Char → List Char → Nat
  | [], t => t.length
  | a :: s, [] => (a :: s).length
  | a :: s, b :: t =>
    if a = b then levList s t
    else 1 + min (levList (a :: s) t) (min (levList s (b :: t)) (levList s t))
termination_by s t => s.length + t.length
decreasing_by all_goals simp_arith

/-- Modelled from the spec: `ld(s, t, ignoreCase)`, the (optionally
case-insensitive) Levenshtein distance used by `SuggestionFor`. -/
def ld (s t : String) (ignoreCase : Bool) : Nat :=
  if ignoreCase then levList (strLower s).data (strLower t).data
  else levList s.data t.data

/-- The per-child loop of `Command.SuggestionFor`: for each available
child, suggest its name when the case-insensitive edit distance to the
typed token is within the minimum or the lower-cased name starts with the
lower-cased token, and additionally once per explicit `SuggestFor` alias
the token case-insensitively equals. -/
def suggestionsGo (c : Command) (typedName : String) : List Command → List String
  | [] => []
  | cmd :: rest =>
    (if isAvailableCommand (some c) cmd then
      (if ((ld typedName cmd.name true : Int) ≤ c.suggestionsMinimumDistance)
          || strHasPfx (strLower cmd.name) (strLower typedName) then [cmd.name] else [])
      ++ cmd.suggestFor.filterMap
          (fun sug => if strEqFold typedName sug then some cmd.name else none)
     else [])
    ++ suggestionsGo c typedName rest

/-- `Command.SuggestionFor` (the source declares the parameter `typeName`
and reads it as `typedName`; both denote the mistyped token). -/
def SuggestionFor (c : Command) (typedName : String) : List String :=
  suggestionsGo c typedName c.commands

def Command.withMinDistance : Command → Int → Command
  | .mk u a s r d h hc dfp ds _ fl cs, m => .mk u a s r d h hc dfp ds m fl cs

/-- The suggestion list rendered by `Command.findSuggestion`: empty when
suggestions are disabled; otherwise `SuggestionFor` after coercing a
non-positive configured minimum distance to the default 2. -/
def findSuggestionList (c : Command) (arg : String) : List String :=
  if c.disableSuggestions then []
  else
    let c' := if c.suggestionsMinimumDistance ≤ 0 then c.withMinDistance 2 else c
    SuggestionFor c' arg

/-! ## Flag groups (`flag_groups.go`)

The three annotation keys, the per-flag processing that materializes the
status tables, and the three validation passes.  A status table
(`map[string]map[string]bool` in the source) is an association list from
group signature to an association list from member flag name to its
`Changed` state; the outer map is iterated through `sortedKeys` by the
validators, and every theorem quantifies over the inner list order. -/

def requiredAsGroupAnnot : String := "cobra_annotation_required_if_others_set"

def oneRequiredAnnot : String := "cobra_annotation_one_required"

def mutuallyExclusiveAnnot : String := "cobra_annotation_mutually_exclusive"

/-- One group's status: member flag name to `Changed`. -/
abbrev MemberStatus := List (String × Bool)

/-- All groups' status for one annotation kind. -/
abbrev GroupStatus := List (String × MemberStatus)

/-- Go map assignment `m[k] = b` on a member-status map. -/
def setKV (m : MemberStatus) (k : String) (b : Bool) : MemberStatus :=
  if (m.find? (fun p => p.1 == k)).isSome then
    m.map (fun p => if p.1 == k then (p.1, b) else p)
  else m ++ [(k, b)]

/-- Go map access `groupStatus[group]` (`nil` becomes `none`). -/
def gsLookup (gs : GroupStatus) (g : String) : Option MemberStatus :=
  (gs.find? (fun p => p.1 == g)).map (·.2)

/-- Go map assignment `groupStatus[group] = m`. -/
def gsSet (gs : GroupStatus) (g : String) (m : MemberStatus) : GroupStatus :=
  if (gs.find? (fun p => p.1 == g)).isSome then
    gs.map (fun p => if p.1 == g then (p.1, m) else p)
  else gs ++ [(g, m)]

/-- `processFlagGroupAnnot`: for each group signature carried by the
visited flag under the given annotation key, materialize the group (all
members initialized unchanged) only if every member name resolves in the
flag view, then record the visited flag's `Changed` state. -/
def processFlagGroupAnnot (flags : List FlagDef) (pflag : FlagDef)
    (annot : String) (groupStatus : GroupStatus) : GroupStatus :=
  match annLookup pflag annot with
  | none => groupStatus
  | some groupInfo =>
    groupInfo.foldl (fun gs group =>
      match gsLookup gs group with
      | none =>
        let flagnames := splitSpace group
        if !hasAllFlags flags flagnames then gs
        else
          let initd : MemberStatus := flagnames.map (fun n => (n, false))
          gsSet gs group (setKV initd pflag.name pflag.changed)
      | some m => gsSet gs group (setKV m pflag.name pflag.changed)) groupStatus

/-- The `VisitAll` loop of `ValidateFlagGroups`, building the three status
tables over the resolved flag view. -/
def buildGroupStatuses (flags : List FlagDef) : GroupStatus × GroupStatus × GroupStatus :=
  flags.foldl
    (fun t pflag =>
      (processFlagGroupAnnot flags pflag requiredAsGroupAnnot t.1,
       processFlagGroupAnnot flags pflag oneRequiredAnnot t.2.1,
       processFlagGroupAnnot flags pflag mutuallyExclusiveAnnot t.2.2))
    ([], [], [])

/-- The structured content of the errors `fmt.Errorf` renders in the three
validation passes: which group failed and the sorted flag-name list the
message embeds. -/
inductive FlagGroupError where
  | requiredTogether (group : String) (missing : List String)
  | oneRequired (group : String)
  | exclusive (group : String) (set : List String)
deriving DecidableEq

/-- The group signature an error names. -/
def FlagGroupError.group : FlagGroupError → String
  | .requiredTogether g _ => g
  | .oneRequired g => g
  | .exclusive g _ => g

/-- `sortedKeys`: the group signatures of a status table in sorted order. -/
def sortedKeys (gs : GroupStatus) : List String :=
  sortStrings (gs.map (·.1))

/-- The loop of `validateRequireFlagGroups` over the sorted signatures. -/
def validateRequireGo (data : GroupStatus) : List String → Option FlagGroupError
  | [] => none
  | g :: rest =>
    match gsLookup data g with
    | none => validateRequireGo data rest
    | some m =>
      let unset := (m.filter (fun p => !p.2)).map (·.1)
      if unset.length == m.length || unset.length == 0 then validateRequireGo data rest
      else some (.requiredTogether g (sortStrings unset))

/-- `validateRequireFlagGroups`: first group (in sorted signature order)
with both a changed and an unchanged member yields an error naming the
sorted unchanged members. -/
def validateRequireFlagGroups (data : GroupStatus) : Option FlagGroupError :=
  validateRequireGo data (sortedKeys data)

/-- The loop of `validateOneRequiredFlagGroups` over sorted signatures. -/
def validateOneRequiredGo (data : GroupStatus) : List String → Option FlagGroupError
  | [] => none
  | g :: rest =>
    match gsLookup data g with
    | none => validateOneRequiredGo data rest
    | some m =>
      let set := (m.filter (fun p => p.2)).map (·.1)
      if 1 ≤ set.length then validateOneRequiredGo data rest
      else some (.oneRequired g)

/-- `validateOneRequiredFlagGroups`: first group with no changed member
yields an error naming the group. -/
def validateOneRequiredFlagGroups (data : GroupStatus) : Option FlagGroupError :=
  validateOneRequiredGo data (sortedKeys data)

/-- The loop of `validateExclusiveFlagGroups` over sorted signatures. -/
def validateExclusiveGo (data : GroupStatus) : List String → Option FlagGroupError
  | [] => none
  | g :: rest =>
    match gsLookup data g with
    | none => validateExclusiveGo data rest
    | some m =>
      let set := (m.filter (fun p => p.2)).map (·.1)
      if set.length == 0 || set.length == 1 then validateExclusiveGo data rest
      else some (.exclusive g (sortStrings set))

/-- `validateExclusiveFlagGroups`: first group with two or more changed
members yields an error naming the sorted changed members. -/
def validateExclusiveFlagGroups (data : GroupStatus) : Option FlagGroupError :=
  validateExclusiveGo data (sortedKeys data)

/-- `Command.ValidateFlagGroups`: skipped when flag parsing is disabled;
otherwise build the three status tables over the resolved flag view and
run the three passes in order, returning the first failure. -/
def ValidateFlagGroups (c : Command) : Option FlagGroupError :=
  if c.disableFlagParsing then none
  else
    let t := buildGroupStatuses c.flags
    match validateRequireFlagGroups t.1 with
    | some e => some e
    | none =>
      match validateOneRequiredFlagGroups t.2.1 with
      | some e => some e
      | none => validateExclusiveFlagGroups t.2.2

/-! ## The completion-time flag-group pass -/

/-- Modelled from the spec: the annotation key `MarkFlagRequired` sets
(`BashCompOneRequiredFlag`, declared outside `src/`); the spec only needs
that marking a flag "required" is recorded on the flag. -/
def BashCompOneRequiredFlag : String := "cobra_annotation_bash_completion_one_required_flag"

/-- Go map assignment on an annotation mapping. -/
def annSet (anns : List (String × List String)) (key : String) (vals : List String) :
    List (String × List String) :=
  if (anns.find? (fun p => p.1 == key)).isSome then
    anns.map (fun p => if p.1 == key then (p.1, vals) else p)
  else anns ++ [(key, vals)]

/-- `FlagSet.SetAnnotation` restricted to the success path: update the
named flag's annotation mapping (a missing flag yields an error the
completion pass ignores, leaving the view unchanged). -/
def setAnnot (fs : List FlagDef) (name key : String) (vals : List String) :
    List FlagDef :=
  fs.map (fun f => if f.name == name then { f with annotations := annSet f.annotations key vals } else f)

/-- `MarkFlagRequired` from the source: annotate the named flag with
`BashCompOneRequiredFlag = ["true"]`. -/
def markFlagRequired (fs : List FlagDef) (name : String) : List FlagDef :=
  setAnnot fs name BashCompOneRequiredFlag ["true"]

/-- Whether a flag carries the required marker. -/
def isMarkedRequired (fs : List FlagDef) (name : String) : Bool :=
  match lookupFlag fs name with
  | none => false
  | some f => annLookup f BashCompOneRequiredFlag == some ["true"]

/-- The `flag.Hidden = true` assignment after a bare `Lookup`: `none`
models the nil-pointer panic when the flag is absent from the view. -/
def setHidden (fs : List FlagDef) (name : String) : Option (List FlagDef) :=
  match lookupFlag fs name with
  | none => none
  | some _ => some (fs.map (fun f => if f.name == name then { f with hidden := true } else f))

/-- Modelled from the spec: `processFlagForGroupAnnot` (the
completion-time table builder) is not under `src/`; per the spec both
passes build the same status tables, "materializing a group only once all
its member flags are simultaneously present in the resolved flag view",
which is exactly `processFlagGroupAnnot`. -/
def processFlagForGroupAnnot (flags : List FlagDef) (pflag : FlagDef)
    (annot : String) (groupStatus : GroupStatus) : GroupStatus :=
  processFlagGroupAnnot flags pflag annot groupStatus

/-- The completion-time builder loop (`c.Flags().VisitAll` in
`enforceFlagGroupsForCompletion`). -/
def buildGroupStatusesForCompletion (flags : List FlagDef) :
    GroupStatus × GroupStatus × GroupStatus :=
  flags.foldl
    (fun t pflag =>
      (processFlagForGroupAnnot flags pflag requiredAsGroupAnnot t.1,
       processFlagForGroupAnnot flags pflag oneRequiredAnnot t.2.1,
       processFlagForGroupAnnot flags pflag mutuallyExclusiveAnnot t.2.2))
    ([], [], [])

/-- The required-together completion pass: for each group, once per set
member, mark every member of the group required. -/
def enforceRequiredPass (gs : GroupStatus) (fs : List FlagDef) : List FlagDef :=
  gs.foldl
    (fun fs entry =>
      entry.2.foldl
        (fun fs p =>
          if p.2 then (splitSpace entry.1).foldl (fun fs n => markFlagRequired fs n) fs
          else fs)
        fs)
    fs

/-- The one-required completion pass: when no member of a group is set,
mark every member of the group required. -/
def enforceOneRequiredPass (gs : GroupStatus) (fs : List FlagDef) : List FlagDef :=
  gs.foldl
    (fun fs entry =>
      if entry.2.any (fun p => p.2) then fs
      else (splitSpace entry.1).foldl (fun fs n => markFlagRequired fs n) fs)
    fs

/-- Hide every member of `group` other than `flagName` (`none` models the
nil-pointer panic on a member absent from the view). -/
def hideOthers (fs : List FlagDef) (group flagName : String) : Option (List FlagDef) :=
  (splitSpace group).foldl
    (fun acc n => acc.bind (fun fs => if n == flagName then some fs else setHidden fs n))
    (some fs)

/-- The mutually-exclusive completion pass: once per set member of a
group, hide every other member. -/
def enforceExclusivePass (gs : GroupStatus) (fs : List FlagDef) : Option (List FlagDef) :=
  gs.foldl
    (fun acc entry =>
      entry.2.foldl
        (fun acc p =>
          if p.2 then acc.bind (fun fs => hideOthers fs entry.1 p.1) else acc)
        acc)
    (some fs)

/-- `Command.enforceFlagGroupsForCompletion`: never fails by design; the
`Option` result makes the potential nil-pointer dereference of the
mutually-exclusive pass observable so that its absence can be proved. -/
def enforceFlagGroupsForCompletion (c : Command) : Option (List FlagDef) :=
  if c.disableFlagParsing then some c.flags
  else
    let t := buildGroupStatusesForCompletion c.flags
    let fs1 := enforceRequiredPass t.1 c.flags
    let fs2 := enforceOneRequiredPass t.2.1 fs1
    enforceExclusivePass t.2.2 fs2

/-! ## Completion directives and the flag-completion hook registry
(`src/unnamed/part_003`) -/

/-- `ShellCompDirectiveError = 1 << iota` with `iota = 0`. -/
def ShellCompDirectiveError : Nat := 1

def ShellCompDirectiveNoSpace : Nat := 2

def ShellCompDirectiveNoFileComp : Nat := 4

/-- The fourth declared bit: the source names it `ShellCompDirectiveFilterExt`. -/
def ShellCompDirectiveFilterExt : Nat := 8

/-- The fifth and last exported bit in the source's `const` block. -/
def ShellCompDirectiveKeepOrder : Nat := 16

def shellCompDirectiveMaxValue : Nat := 32

def ShellCompDirectiveDefault : Nat := 0

/-- The exported directive bits the source's `const` block declares, in
declaration order. -/
def shellCompDirectivesDeclared : List Nat :=
  [ShellCompDirectiveError, ShellCompDirectiveNoSpace, ShellCompDirectiveNoFileComp,
   ShellCompDirectiveFilterExt, ShellCompDirectiveKeepOrder]

/-- The completion-hook registry `flagCompletionFunctions`, keyed by flag
identity (Go keys the map by `*pflag.Flag`; flag records here stand in for
the pointers), with hook values of an abstract type `α`. -/
abbrev HookRegistry (α : Type) := List (FlagDef × α)

/-- Registry lookup by flag identity. -/
def regLookup {α : Type} (reg : HookRegistry α) (fl : FlagDef) : Option α :=
  (reg.find? (fun p => p.1 = fl)).map (·.2)

/-- `Command.RegisterFlagCompletionFunc`: reject an unknown flag, reject a
flag that already has a hook (leaving the registry untouched), otherwise
extend the registry.  The `sync.RWMutex` write lock serializes this
check-then-insert; the sequential model performs it atomically. -/
def RegisterFlagCompletionFunc {α : Type} (c : Command) (flagName : String) (f : α)
    (reg : HookRegistry α) : Option String × HookRegistry α :=
  match lookupFlag c.flags flagName with
  | none =>
    (some ("RegisterFlagCompletionFunc: flag '" ++ flagName ++ "' does not exist"), reg)
  | some fl =>
    match regLookup reg fl with
    | some _ =>
      (some ("RegisterFlagCompletionFunc: flag '" ++ flagName ++ "' already registered"), reg)
    | none => (none, reg ++ [(fl, f)])

/-- `Command.GetFlagCompletionFunc`: `(nil, false)` for an unknown flag,
otherwise the registry lookup under the read lock, with the `exists`
boolean of the map access. -/
def GetFlagCompletionFunc {α : Type} (c : Command) (flagName : String)
    (reg : HookRegistry α) : Option α × Bool :=
  match lookupFlag c.flags flagName with
  | none => (none, false)
  | some fl => (regLookup reg fl, (regLookup reg fl).isSome)

/-! ## Derived notions used by the claim statements -/

/-- The children of `c` that `findNext` accepts as exact name or alias
matches for `next`, in declaration order. -/
def exactMatches (c : Command) (next : String) : List Command :=
  c.commands.filter (fun cmd => commandNameMatches cmd.name next || cmd.hasAlias next)

/-- The children of `c` whose name or an alias has `next` as a prefix, in
declaration order. -/
def prefixQualifiers (c : Command) (next : String) : List Command :=
  c.commands.filter (fun cmd => cmd.hasNameOrAliasPfx next)

/-- One annotation kind's status table as `ValidateFlagGroups` builds it:
the `VisitAll` fold of `processFlagGroupAnnot` over the view. -/
def singleGroupBuild (key : String) (view : List FlagDef) : GroupStatus :=
  view.foldl (fun gs f => processFlagGroupAnnot view f key gs) []

/-- The names of the flags of `l` that belong to `ns`, in view order. -/
def memberNames (ns : List String) (l : List FlagDef) : List String :=
  (l.filter (fun f => ns.contains f.name)).map (·.name)

/-- A flag view configured with exactly one flag group: `g` is the stored
signature, `ns` its member names, `changed` gives each flag's `Changed`
state, every member carries the signature under `key` and no flag carries
any other group annotation. -/
def SingleGroupConfig (key g : String) (ns : List String) (changed : String → Bool)
    (view : List FlagDef) : Prop :=
  splitSpace g = ns ∧ ns ≠ [] ∧ ns.Nodup ∧
  (∀ f ∈ view, annLookup f key = if f.name ∈ ns then some [g] else none) ∧
  (∀ f ∈ view, f.changed = changed f.name) ∧
  (∀ n ∈ ns, ∃ f ∈ view, f.name = n)

/-- The flag view `MarkFlags*` would produce for a single group: one flag
per member, annotated with the group signature under `key`. -/
def singleGroupView (key g : String) (ns : List String) (changed : String → Bool) :
    List FlagDef :=
  ns.map (fun n => ⟨n, "", "", changed n, false, [(key, [g])]⟩)

/-- A runnable command node with the given flag view, a single declared
group, and flag parsing enabled. -/
def groupCmd (key g : String) (ns : List String) (changed : String → Bool) : Command :=
  .mk "root" [] [] true "" false none false false 0 (singleGroupView key g ns changed) []

/-! ## Concrete fixtures for the witnesses -/

/-- A plain runnable command node. -/
def mkCmd (use : String) (flags : List FlagDef) (cmds : List Command) : Command :=
  .mk use [] [] true "" false none false false 0 flags cmds

/-- An always-succeeding external flag parser. -/
def parse0 : Command → List String → Option String := fun _ _ => none

def c1Cmd : Command := mkCmd "root" [] [mkCmd "status" [] [], mkCmd "start" [] []]

def c2Flags : List FlagDef :=
  [⟨"a", "", "", true, false, [(requiredAsGroupAnnot, ["a b c"])]⟩,
   ⟨"b", "", "", false, false, [(requiredAsGroupAnnot, ["a b c"])]⟩,
   ⟨"c", "", "", false, false, [(requiredAsGroupAnnot, ["a b c"])]⟩]

def c2Cmd : Command := mkCmd "root" c2Flags []

def c3CexCmd : Command :=
  mkCmd "root"
    [⟨"a", "", "", true, false, [(oneRequiredAnnot, ["a b"])]⟩,
     ⟨"b", "", "", false, false, [(oneRequiredAnnot, ["a b"])]⟩] []

def c4Cex : Command := mkCmd "root" [⟨"alpha", "a", "", false, false, []⟩] [mkCmd "sub" [] []]

def c4Sub : Command := mkCmd "sub" [] []

def c4W : Command := mkCmd "root" [] []

def c5Cmd : Command := mkCmd "root" [] [mkCmd "list" [] [], mkCmd "ls" [] []]

def c6Cmd : Command :=
  mkCmd "root" [⟨"a", "", "", true, false, [(requiredAsGroupAnnot, ["a b"])]⟩] []

def c7Flag : FlagDef := ⟨"out", "", "", false, false, []⟩

def c7Cmd : Command := mkCmd "root" [c7Flag] []

def c7Reg : HookRegistry Nat := [(c7Flag, 0)]

def c10Flag : FlagDef := ⟨"format", "", "", false, false, []⟩

def c10Cmd : Command := mkCmd "root" [c10Flag] []

/-- The name sequence of a flag view. -/
def namesOf (fs : List FlagDef) : List String :=
  fs.map (fun f => f.name)

/-! ## Claim theorems and supporting lemmas -/

theorem findNextGo_char (next : String) :
    ∀ (l acc : List Command),
      findNextGo true next l acc =
        match l.filter (fun cmd => commandNameMatches cmd.name next || cmd.hasAlias next) with
        | e :: _ => some e
        | [] =>
          match acc ++ l.filter (fun cmd => cmd.hasNameOrAliasPfx next) with
          | [m] => some m
          | _ => none := by
  intro l
  induction l with
  | nil => intro acc; simp [findNextGo]
  | cons hd tl ih =>
    intro acc
    by_cases h₁ : (commandNameMatches hd.name next || hd.hasAlias next) = true
    · simp [findNextGo, h₁]
    · by_cases h₂ : hd.hasNameOrAliasPfx next = true
      · simp [findNextGo, h₁, h₂, ih, List.filter_cons, List.append_assoc]
      · simp [findNextGo, h₁, h₂, ih, List.filter_cons]

/-- With no exact match and a non-singleton prefix-qualifier list,
`findNext` reports no match. -/
theorem findNext_ambiguous {c : Command} {next : String}
    (hexo : exactMatches c next = [])
    (hlen : (prefixQualifiers c next).length ≠ 1) :
    findNext true c next = none := by
  unfold findNext
  rw [findNextGo_char next c.commands []]
  unfold exactMatches at hexo
  rw [hexo]
  simp only [List.nil_append]
  unfold prefixQualifiers at hlen
  rcases hm : List.filter (fun cmd => cmd.hasNameOrAliasPfx next) c.commands with _ | ⟨m, rest⟩
  · rw [hm]
  · rcases rest with _ | ⟨b, r⟩
    · rw [hm] at hlen; simp at hlen
    · rw [hm]

/-- When `findNext` reports no match for the first candidate token,
`Find`'s resolution loop keeps the current node and args. -/
theorem innerfind_no_child {epm : Bool} {c : Command} {args : List String}
    {t : String} {rest' : List String}
    (hs : stripFlags c args = t :: rest')
    (hn : findNext epm c t = none) : innerfind epm c args = (c, args) := by
  unfold innerfind
  rw [hs]
  split
  · rfl
  · rename_i x y ys heq
    injection heq with h₁ h₂
    subst h₁
    split
    · rename_i cmd heq₂
      rw [hn] at heq₂
      exact Option.noConfusion heq₂
    · rfl

/-- C1: with prefix matching enabled, `findNext` resolves a candidate
token by exact name or alias match first (the first exactly-matching child
wins, whatever prefix qualifiers exist); with no exact match it collects
the children whose name or alias has the token as a prefix and descends
only when exactly one qualifies; with two or more qualifiers the match is
ambiguous — `findNext` reports no match and `Find`'s resolution loop
returns the current parent node and its args unchanged, with no error
possible at this level. -/
theorem findNext_prefix_resolution (c : Command) (next : String) (args : List String) :
    (exactMatches c next ≠ [] → findNext true c next = (exactMatches c next).head?)
    ∧ (exactMatches c next = [] →
        findNext true c next =
          (match prefixQualifiers c next with
           | [m] => some m
           | _ => none))
    ∧ (exactMatches c next = [] → 2 ≤ (prefixQualifiers c next).length →
        (stripFlags c args).head? = some next →
        innerfind true c args = (c, args)) := by
  have hchar := findNextGo_char next c.commands []
  refine ⟨?_, ?_, ?_⟩
  · intro hne
    unfold findNext
    rw [hchar]
    unfold exactMatches at hne ⊢
    rcases hm : List.filter
        (fun cmd => commandNameMatches cmd.name next || cmd.hasAlias next) c.commands with
      _ | ⟨e, rest⟩
    · exact absurd hm hne
    · rw [hm]; rfl
  · intro hexo
    unfold findNext
    rw [hchar]
    unfold exactMatches at hexo
    rw [hexo]
    simp only [List.nil_append]
    unfold prefixQualifiers
    rcases hm : List.filter (fun cmd => cmd.hasNameOrAliasPfx next) c.commands with _ | ⟨m, rest⟩
    · rw [hm]
    · rcases rest with _ | ⟨b, r⟩
      · rw [hm]
      · rw [hm]
  · intro hexo hlen hhead
    have hnone : findNext true c next = none :=
      findNext_ambiguous hexo (by omega)
    rcases hs : stripFlags c args with _ | ⟨t, rest'⟩
    · rw [hs] at hhead; simp at hhead
    · rw [hs] at hhead
      simp only [List.head?] at hhead
      injection hhead with hhead
      subst hhead
      exact innerfind_no_child hs hnone

/-- Witness for C1: children `status` and `start` with the token `sta`
have no exact match and two prefix qualifiers, and resolution keeps the
parent node and args unchanged. -/
theorem findNext_prefix_resolution_witness :
    exactMatches c1Cmd "sta" = [] ∧ 2 ≤ (prefixQualifiers c1Cmd "sta").length ∧
    innerfind true c1Cmd ["sta"] = (c1Cmd, ["sta"]) :=
  ⟨rfl, by decide,
    (findNext_prefix_resolution c1Cmd "sta" ["sta"]).2.2 rfl (by decide) rfl⟩

/-- C9 (code evaluation): the `ShellCompDirective` constant block of the
source declares exactly five exported bits, `1 << iota` giving
`Error = 1`, `NoSpace = 2`, `NoFileComp = 4`, `FilterExt = 8` and
`KeepOrder = 16` (there is no `FilterDirs` constant and no sixth bit;
`shellCompDirectiveMaxValue = 32`), while the default directive is the
zero value. -/
theorem shellCompDirectives_codeValues :
    shellCompDirectivesDeclared = [1, 2, 4, 8, 16]
    ∧ shellCompDirectivesDeclared.length = 5
    ∧ shellCompDirectivesDeclared.Nodup
    ∧ ShellCompDirectiveDefault = 0
    ∧ shellCompDirectiveMaxValue = 32 := by
  decide

/-- C7: registering a completion hook for a flag that already has one
returns an error and leaves the registry — in particular the previously
registered hook — unchanged. -/
theorem registerFlagCompletionFunc_duplicate {α : Type} (c : Command) (flagName : String)
    (f f₀ : α) (reg : HookRegistry α) (fl : FlagDef)
    (hfl : lookupFlag c.flags flagName = some fl)
    (hreg : regLookup reg fl = some f₀) :
    RegisterFlagCompletionFunc c flagName f reg =
      (some ("RegisterFlagCompletionFunc: flag '" ++ flagName ++ "' already registered"), reg)
    ∧ regLookup (RegisterFlagCompletionFunc c flagName f reg).2 fl = some f₀ := by
  refine ⟨?_, ?_⟩ <;> simp [RegisterFlagCompletionFunc, hfl, hreg]

/-- Witness for C7: a second registration for the flag `out` is rejected
and hook `0` stays registered. -/
theorem registerFlagCompletionFunc_duplicate_witness :
    RegisterFlagCompletionFunc c7Cmd "out" (7 : Nat) c7Reg =
      (some "RegisterFlagCompletionFunc: flag 'out' already registered", c7Reg)
    ∧ regLookup (RegisterFlagCompletionFunc c7Cmd "out" (7 : Nat) c7Reg).2 c7Flag =
        some 0 :=
  registerFlagCompletionFunc_duplicate c7Cmd "out" 7 0 c7Reg c7Flag rfl rfl

/-- C10: `GetFlagCompletionFunc` returns `(nil, false)` for a flag name
absent from the command's flag view, and returns `false` (with no hook)
for an existing flag with no registered hook. -/
theorem getFlagCompletionFunc_absent {α : Type} (c : Command) (flagName : String)
    (reg : HookRegistry α) :
    (lookupFlag c.flags flagName = none →
      GetFlagCompletionFunc c flagName reg = (none, false))
    ∧ (∀ fl, lookupFlag c.flags flagName = some fl → regLookup reg fl = none →
        GetFlagCompletionFunc c flagName reg = (none, false)) := by
  constructor
  · intro h
    simp [GetFlagCompletionFunc, h]
  · intro fl h hr
    simp [GetFlagCompletionFunc, h, hr]

/-- Witness for C10: an unknown flag name and a known flag with no hook
both yield `(none, false)`. -/
theorem getFlagCompletionFunc_absent_witness :
    GetFlagCompletionFunc c10Cmd "nope" ([] : HookRegistry Nat) = (none, false)
    ∧ GetFlagCompletionFunc c10Cmd "format" ([] : HookRegistry Nat) = (none, false) :=
  ⟨(getFlagCompletionFunc_absent c10Cmd "nope" ([] : HookRegistry Nat)).1 rfl,
   (getFlagCompletionFunc_absent c10Cmd "format" ([] : HookRegistry Nat)).2 c10Flag rfl rfl⟩

theorem strHasPfx_dash_of_ddash {s : String} (h : strHasPfx s "--" = true) :
    strHasPfx s "-" = true := by
  have hdd : ("--" : String).data = ['-', '-'] := rfl
  have hd : ("-" : String).data = ['-'] := rfl
  unfold strHasPfx at h ⊢
  rw [hdd] at h
  rw [hd]
  cases hl : s.data with
  | nil => rw [hl] at h; simp [List.isPrefixOf] at h
  | cons a t =>
    rw [hl] at h
    simp [List.isPrefixOf] at h ⊢
    exact h.1

theorem isFlagArgs_false_of_no_dash {arg : String} (h : strHasPfx arg "-" = false) :
    isFlagArgs arg = false := by
  have hd : ("-" : String).data = ['-'] := rfl
  unfold strHasPfx at h
  rw [hd] at h
  unfold isFlagArgs strTake strDrop strLen
  cases hl : arg.data with
  | nil => simp
  | cons a t =>
    rw [hl] at h
    simp [List.isPrefixOf] at h
    have ha : a ≠ '-' := fun hh => by simp [hh] at h
    have h2 : ((⟨List.take 2 (a :: t)⟩ : String) == "--") = false := by
      rw [beq_eq_false_iff_ne]
      intro heq
      have hdata : List.take 2 (a :: t) = ['-', '-'] := congrArg String.data heq
      simp only [List.take_succ_cons] at hdata
      injection hdata with h1 _
      exact ha h1
    have h1 : ((⟨List.take 1 (a :: t)⟩ : String) == "-") = false := by
      rw [beq_eq_false_iff_ne]
      intro heq
      have hdata : List.take 1 (a :: t) = ['-'] := congrArg String.data heq
      simp only [List.take_succ_cons, List.take_zero] at hdata
      injection hdata with h1 _
      exact ha h1
    simp [h2, h1]
    constructor
    · intro _ heq
      have hdata : a :: List.take 1 t = ['-', '-'] := congrArg String.data heq
      injection hdata with hh _
      exact absurd hh ha
    · intro _ heq
      have hdata : [a] = ['-'] := congrArg String.data heq
      injection hdata with hh _
      exact absurd hh ha

/-- When the scan finishes without descending, `Traverse` returns the
current node, the full untouched args and no error. -/
theorem Traverse_finish {parse : Command → List String → Option String} {epm : Bool}
    {c : Command} {args : List String}
    (h : traverseScan epm c args [] false = none) :
    Traverse parse epm c args = (some c, args, none) := by
  rw [Traverse.eq_def]
  split
  · rfl
  · rename_i out heq
    rw [h] at heq
    exact Option.noConfusion heq

/-- When the scan finds a child and the buffered flags parse, `Traverse`
recurses into the child on the remaining args. -/
theorem Traverse_descend {parse : Command → List String → Option String} {epm : Bool}
    {c cmd : Command} {args fl rest : List String}
    (h : traverseScan epm c args [] false = some (fl, cmd, rest))
    (hp : parse c fl = none) :
    Traverse parse epm c args = Traverse parse epm cmd rest := by
  rw [Traverse.eq_def]
  split
  · rename_i heq
    rw [h] at heq
    exact Option.noConfusion heq
  · rename_i out heq
    rw [h] at heq
    injection heq with heq
    simp only [Prod.mk.injEq] at heq
    obtain ⟨e₁, e₂, e₃⟩ := heq
    subst e₁
    subst e₂
    subst e₃
    rw [hp]

/-- C4 (amended): in `Traverse`'s scan, a `--`-prefixed token without `=`
enters flag mode exactly when the named flag's registration declares no
no-value default; a two-character single-dash token without `=` whose
shorthand declares no no-value default enters flag mode (longer
single-dash tokens are buffered as flags without entering flag mode);
while in flag mode every subsequent token is buffered as flag data; a
token not starting with `-` outside flag mode is looked up as the next
child name against the current node; and when the scan finds no child,
`Traverse` returns the current node and the full untouched remaining args
with a nil error. -/
theorem traverse_flag_scanning (parse : Command → List String → Option String)
    (epm : Bool) (c : Command) :
    (∀ arg rest fl b, strHasPfx arg "--" = true → strContainsChar arg '=' = false →
        traverseScan epm c (arg :: rest) fl b =
          traverseScan epm c rest (fl ++ [arg]) (!hasNoOptDefVal (strDrop arg 2) c.flags))
    ∧ (∀ arg rest fl b, strHasPfx arg "-" = true → strHasPfx arg "--" = false →
        strContainsChar arg '=' = false → strLen arg = 2 →
        shortNoOptDefVal (strDrop arg 1) c.flags = false →
        traverseScan epm c (arg :: rest) fl b = traverseScan epm c rest (fl ++ [arg]) true)
    ∧ (∀ arg rest fl,
        (strHasPfx arg "--" && !strContainsChar arg '=') = false →
        (strHasPfx arg "-" && !strContainsChar arg '=' && strLen arg == 2
          && !shortNoOptDefVal (strDrop arg 1) c.flags) = false →
        traverseScan epm c (arg :: rest) fl true = traverseScan epm c rest (fl ++ [arg]) true)
    ∧ (∀ arg rest fl, strHasPfx arg "-" = false →
        traverseScan epm c (arg :: rest) fl false =
          (match findNext epm c arg with
           | none => none
           | some cmd => some (fl, cmd, rest)))
    ∧ (∀ args, traverseScan epm c args [] false = none →
        Traverse parse epm c args = (some c, args, none)) := by
  refine ⟨?_, ?_, ?_, ?_, ?_⟩
  · intro arg rest fl b h₁ h₂
    simp [traverseScan, h₁, h₂]
  · intro arg rest fl b h₁ hdd h₂ h₃ h₄
    simp [traverseScan, h₁, hdd, h₂, h₃, h₄]
  · intro arg rest fl h₁ h₂
    simp only [traverseScan, h₁, h₂]
    simp
  · intro arg rest fl h
    have hdd : strHasPfx arg "--" = false := by
      cases hc : strHasPfx arg "--"
      · rfl
      · rw [strHasPfx_dash_of_ddash hc] at h
        exact Bool.noConfusion h
    have hfa : isFlagArgs arg = false := isFlagArgs_false_of_no_dash h
    simp [traverseScan, hdd, h, hfa]
  · intro args h
    exact Traverse_finish h

/-- Witness for C4: a `--verbose` token (no registered no-value default)
enters flag mode buffering the next token, and a line whose first
candidate token is not a child leaves the node, args and error untouched. -/
theorem traverse_flag_scanning_witness :
    traverseScan false c4W ["--verbose", "val"] [] false =
      traverseScan false c4W ["val"] ["--verbose"] true
    ∧ Traverse parse0 false c4W ["--verbose", "val", "unknown"] =
        (some c4W, ["--verbose", "val", "unknown"], none) :=
  ⟨by
    have h := (traverse_flag_scanning parse0 false c4W).1 "--verbose" ["val"] [] false
      (by decide) (by decide)
    simpa using h,
   (traverse_flag_scanning parse0 false c4W).2.2.2.2 ["--verbose", "val", "unknown"] rfl⟩

/-- C4 counterexample: the three-character single-dash token `-ab`
(whose shorthand `a` is registered with no no-value default) does not
enter flag mode — the following token `sub` is looked up as a child and
`Traverse` descends, instead of buffering it as the flag's value and
returning the parent with the untouched args as the claim predicts. -/
theorem traverse_shortflag_counterexample :
    Traverse parse0 false c4Cex ["-ab", "sub"] = (some c4Sub, [], none)
    ∧ ((some c4Sub, ([] : List String), (none : Option String)) ≠
        (some c4Cex, ["-ab", "sub"], (none : Option String))) := by
  constructor
  · have h1 : traverseScan false c4Cex ["-ab", "sub"] [] false =
        some (["-ab"], c4Sub, []) := rfl
    have h2 : Traverse parse0 false c4Cex ["-ab", "sub"] = Traverse parse0 false c4Sub [] :=
      Traverse_descend h1 rfl
    rw [h2]
    exact Traverse_finish rfl
  · intro h
    simp only [Prod.mk.injEq] at h
    exact List.noConfusion h.2.1

theorem withMinDistance_commands (c : Command) (d : Int) :
    (c.withMinDistance d).commands = c.commands := by
  cases c; rfl

theorem withMinDistance_smd (c : Command) (d : Int) :
    (c.withMinDistance d).suggestionsMinimumDistance = d := by
  cases c; rfl

theorem withMinDistance_help (c : Command) (d : Int) :
    (c.withMinDistance d).helpCommandName = c.helpCommandName := by
  cases c; rfl

/-- Availability of a child only reads the parent's designated help
command. -/
theorem isAvailableCommand_parent_help {p q : Command} (c : Command)
    (h : p.helpCommandName = q.helpCommandName) :
    isAvailableCommand (some p) c = isAvailableCommand (some q) c := by
  rw [isAvailableCommand.eq_def]
  conv_rhs => rw [isAvailableCommand.eq_def]
  simp [h]

theorem suggestionsGo_mem (c : Command) (typed : String) :
    ∀ (l : List Command) (x : String),
      x ∈ suggestionsGo c typed l ↔
        ∃ cmd ∈ l, isAvailableCommand (some c) cmd = true ∧ cmd.name = x ∧
          (((ld typed cmd.name true : Int) ≤ c.suggestionsMinimumDistance
             ∨ strHasPfx (strLower cmd.name) (strLower typed) = true)
           ∨ ∃ sug ∈ cmd.suggestFor, strEqFold typed sug = true) := by
  intro l
  induction l with
  | nil => intro x; simp [suggestionsGo]
  | cons hd tl ih =>
    intro x
    simp only [suggestionsGo, List.mem_append]
    by_cases hav : isAvailableCommand (some c) hd = true
    · by_cases hcondP : ((ld typed hd.name true : Int) ≤ c.suggestionsMinimumDistance
          ∨ strHasPfx (strLower hd.name) (strLower typed) = true)
      · have hb : (decide ((ld typed hd.name true : Int) ≤ c.suggestionsMinimumDistance)
            || strHasPfx (strLower hd.name) (strLower typed)) = true := by
          rcases hcondP with h | h <;> simp [h]
        simp only [hav, if_true, hb, List.mem_append, List.mem_singleton, List.mem_filterMap]
        constructor
        · rintro ((rfl | ⟨sug, hsug, hif⟩) | hx)
          · exact ⟨hd, List.mem_cons_self _ _, hav, rfl, Or.inl hcondP⟩
          · split at hif
            · rename_i hfold
              injection hif with hif
              exact ⟨hd, List.mem_cons_self _ _, hav, hif, Or.inr ⟨sug, hsug, hfold⟩⟩
            · exact Option.noConfusion hif
          · obtain ⟨cmd, hcmd, h1, h2, h3⟩ := (ih x).mp hx
            exact ⟨cmd, List.mem_cons_of_mem _ hcmd, h1, h2, h3⟩
        · rintro ⟨cmd, hmem, h1, h2, h3⟩
          rcases List.mem_cons.mp hmem with rfl | hcmd
          · exact Or.inl (Or.inl h2.symm)
          · exact Or.inr ((ih x).mpr ⟨cmd, hcmd, h1, h2, h3⟩)
      · have hb : (decide ((ld typed hd.name true : Int) ≤ c.suggestionsMinimumDistance)
            || strHasPfx (strLower hd.name) (strLower typed)) = false := by
          rw [Bool.or_eq_false_iff]
          push_neg at hcondP
          exact ⟨by simpa using hcondP.1, by simpa using hcondP.2⟩
        simp only [hav, if_true, hb, Bool.false_eq_true, if_false, List.nil_append,
          List.mem_append, List.mem_filterMap]
        constructor
        · rintro (⟨sug, hsug, hif⟩ | hx)
          · split at hif
            · rename_i hfold
              injection hif with hif
              exact ⟨hd, List.mem_cons_self _ _, hav, hif, Or.inr ⟨sug, hsug, hfold⟩⟩
            · exact Option.noConfusion hif
          · obtain ⟨cmd, hcmd, h1, h2, h3⟩ := (ih x).mp hx
            exact ⟨cmd, List.mem_cons_of_mem _ hcmd, h1, h2, h3⟩
        · rintro ⟨cmd, hmem, h1, h2, h3⟩
          rcases List.mem_cons.mp hmem with rfl | hcmd
          · rcases h3 with h3 | ⟨sug, hsug, hfold⟩
            · exact absurd h3 hcondP
            · refine Or.inl ⟨sug, hsug, ?_⟩
              rw [if_pos hfold, h2]
          · exact Or.inr ((ih x).mpr ⟨cmd, hcmd, h1, h2, h3⟩)
    · have hav2 : isAvailableCommand (some c) hd = false := by
        cases hvv : isAvailableCommand (some c) hd
        · rfl
        · exact absurd hvv hav
      simp only [hav2, Bool.false_eq_true, if_false, List.nil_append]
      constructor
      · rintro (hx | hx)
        · simp at hx
        · obtain ⟨cmd, hcmd, h1, h2, h3⟩ := (ih x).mp hx
          exact ⟨cmd, List.mem_cons_of_mem _ hcmd, h1, h2, h3⟩
      · rintro ⟨cmd, hmem, h1, h2, h3⟩
        rcases List.mem_cons.mp hmem with rfl | hcmd
        · exact absurd h1 hav
        · exact Or.inr ((ih x).mpr ⟨cmd, hcmd, h1, h2, h3⟩)

/-- C5: with suggestions enabled and children with distinct names, an
available child's name appears in the suggestion list exactly when the
case-insensitive Levenshtein distance between the typed token and the
child's name is within the effective minimum (the configured value, with
any value ≤ 0 coerced to the default 2), or the child's name
case-insensitively starts with the token, or the token case-insensitively
equals one of the child's explicit `SuggestFor` aliases. -/
theorem suggestionFor_membership (c : Command) (tok : String) (ch : Command)
    (hds : c.disableSuggestions = false)
    (hch : ch ∈ c.commands)
    (hav : isAvailableCommand (some c) ch = true)
    (hnd : (c.commands.map Command.name).Nodup) :
    (ch.name ∈ findSuggestionList c tok ↔
      ((ld tok ch.name true : Int) ≤
          (if c.suggestionsMinimumDistance ≤ 0 then 2 else c.suggestionsMinimumDistance)
        ∨ strHasPfx (strLower ch.name) (strLower tok) = true
        ∨ ∃ sug ∈ ch.suggestFor, strEqFold tok sug = true)) := by
  unfold findSuggestionList
  rw [hds]
  simp only [Bool.false_eq_true, if_false]
  by_cases hmin : c.suggestionsMinimumDistance ≤ 0
  · rw [if_pos hmin]
    unfold SuggestionFor
    rw [withMinDistance_commands]
    rw [suggestionsGo_mem]
    rw [if_pos hmin]
    constructor
    · rintro ⟨cmd, hcmd, h1, h2, h3⟩
      have hceq : cmd = ch := List.inj_on_of_nodup_map hnd hcmd hch h2
      subst hceq
      rw [withMinDistance_smd] at h3
      rcases h3 with (h3 | h3) | h3
      · exact Or.inl h3
      · exact Or.inr (Or.inl h3)
      · exact Or.inr (Or.inr h3)
    · intro h3
      refine ⟨ch, hch, ?_, rfl, ?_⟩
      · rw [isAvailableCommand_parent_help ch (withMinDistance_help c 2)]
        exact hav
      · rw [withMinDistance_smd]
        rcases h3 with h3 | h3 | h3
        · exact Or.inl (Or.inl h3)
        · exact Or.inl (Or.inr h3)
        · exact Or.inr h3
  · rw [if_neg hmin]
    unfold SuggestionFor
    rw [suggestionsGo_mem]
    rw [if_neg hmin]
    constructor
    · rintro ⟨cmd, hcmd, h1, h2, h3⟩
      have hceq : cmd = ch := List.inj_on_of_nodup_map hnd hcmd hch h2
      subst hceq
      rcases h3 with (h3 | h3) | h3
      · exact Or.inl h3
      · exact Or.inr (Or.inl h3)
      · exact Or.inr (Or.inr h3)
    · intro h3
      refine ⟨ch, hch, hav, rfl, ?_⟩
      rcases h3 with h3 | h3 | h3
      · exact Or.inl (Or.inl h3)
      · exact Or.inl (Or.inr h3)
      · exact Or.inr h3

/-- Witness for C5: children `list` and `ls` with the mistyped token
`lsit` at the default minimum distance 2 yield a suggestion list
containing `list` (the distance is exactly 2). -/
theorem suggestionFor_membership_witness :
    "list" ∈ findSuggestionList c5Cmd "lsit" := by
  have hav : isAvailableCommand (some c5Cmd) (mkCmd "list" [] []) = true := by
    rw [isAvailableCommand.eq_def]
    rfl
  have h := suggestionFor_membership c5Cmd "lsit" (mkCmd "list" [] []) rfl
    (List.mem_cons_self _ _) hav (by decide)
  have hld : ld "lsit" "list" true = 2 := by
    show levList ['l', 's', 'i', 't'] ['l', 'i', 's', 't'] = 2
    simp [levList]
  refine h.mpr (Or.inl ?_)
  have hname : (mkCmd "list" [] []).name = "list" := rfl
  rw [hname, hld]
  decide

theorem filterLengthFull {α : Type} (p : α → Bool) :
    ∀ (l : List α), ((l.filter p).length = l.length ↔ ∀ a ∈ l, p a = true) := by
  intro l
  induction l with
  | nil => simp
  | cons a t ih =>
    by_cases h : p a = true
    · simp [List.filter_cons, h, ih]
    · simp only [List.filter_cons, h, Bool.false_eq_true, if_false, List.length_cons]
      constructor
      · intro he
        have := List.length_filter_le p t
        omega
      · intro hf
        exact absurd (hf a (List.mem_cons_self _ _)) h

theorem filterNil {α : Type} (p : α → Bool) :
    ∀ (l : List α), (l.filter p = [] ↔ ∀ a ∈ l, ¬(p a = true)) := by
  intro l
  induction l with
  | nil => simp
  | cons a t ih =>
    by_cases h : p a = true
    · simp [List.filter_cons, h]
    · simp [List.filter_cons, h, ih]

theorem find?_map_isSome {ns : List String} {k : String} (hk : k ∈ ns) (f : String → Bool) :
    ((ns.map (fun n => (n, f n))).find? (fun p => p.1 == k)).isSome := by
  rw [List.find?_isSome]
  exact ⟨(k, f k), List.mem_map_of_mem _ hk, by simp⟩

theorem setKV_map {ns : List String} {k : String} (hk : k ∈ ns) (f : String → Bool) (b : Bool) :
    setKV (ns.map (fun n => (n, f n))) k b =
      ns.map (fun n => (n, if n = k then b else f n)) := by
  unfold setKV
  rw [if_pos (find?_map_isSome hk f)]
  rw [List.map_map]
  apply List.map_congr_left
  intro n _
  by_cases hnk : n = k <;> simp [hnk]

theorem processFGA_member_empty {view : List FlagDef} {fd : FlagDef} {key g : String}
    {ns : List String}
    (hann : annLookup fd key = some [g])
    (hall : hasAllFlags view (splitSpace g) = true)
    (hsplit : splitSpace g = ns)
    (hmem : fd.name ∈ ns) :
    processFlagGroupAnnot view fd key [] =
      [(g, ns.map (fun n => (n, if n = fd.name then fd.changed else false)))] := by
  unfold processFlagGroupAnnot
  rw [hann]
  simp only [List.foldl_cons, List.foldl_nil]
  have h0 : gsLookup [] g = none := rfl
  rw [h0, hsplit]
  rw [hsplit] at hall
  rw [hall]
  simp only [Bool.not_true, Bool.false_eq_true, if_false]
  rw [setKV_map hmem (fun _ => false) fd.changed]
  rfl

theorem processFGA_member_existing {view : List FlagDef} {fd : FlagDef} {key g : String}
    {m : MemberStatus}
    (hann : annLookup fd key = some [g]) :
    processFlagGroupAnnot view fd key [(g, m)] = [(g, setKV m fd.name fd.changed)] := by
  unfold processFlagGroupAnnot
  rw [hann]
  simp only [List.foldl_cons, List.foldl_nil]
  have h0 : gsLookup [(g, m)] g = some m := by simp [gsLookup]
  rw [h0]
  simp [gsSet]

theorem processFGA_nonmember {view : List FlagDef} {fd : FlagDef} {key : String}
    (hann : annLookup fd key = none) (gs : GroupStatus) :
    processFlagGroupAnnot view fd key gs = gs := by
  unfold processFlagGroupAnnot
  rw [hann]

theorem memberNames_cons_mem {ns : List String} {fd : FlagDef} {rest : List FlagDef}
    (h : fd.name ∈ ns) :
    memberNames ns (fd :: rest) = fd.name :: memberNames ns rest := by
  unfold memberNames
  rw [List.filter_cons]
  simp [h]

theorem memberNames_cons_notMem {ns : List String} {fd : FlagDef} {rest : List FlagDef}
    (h : ¬(fd.name ∈ ns)) :
    memberNames ns (fd :: rest) = memberNames ns rest := by
  unfold memberNames
  rw [List.filter_cons]
  simp [h]

theorem singleGroup_fold (key g : String) (ns : List String) (changed : String → Bool)
    (view : List FlagDef)
    (hall : hasAllFlags view (splitSpace g) = true)
    (hsplit : splitSpace g = ns) :
    ∀ (suffix : List FlagDef),
      (∀ f ∈ suffix,
        annLookup f key = (if f.name ∈ ns then some [g] else none)
          ∧ f.changed = changed f.name) →
      ∀ (vs : List String) (gs : GroupStatus),
      ((vs = [] ∧ gs = [])
        ∨ (vs ≠ []
            ∧ gs = [(g, ns.map (fun n => (n, if n ∈ vs then changed n else false)))])) →
      suffix.foldl (fun t f => processFlagGroupAnnot view f key t) gs =
        (if vs ++ memberNames ns suffix = [] then []
         else [(g, ns.map
            (fun n => (n, if n ∈ vs ++ memberNames ns suffix then changed n else false)))]) := by
  intro suffix
  induction suffix with
  | nil =>
    intro _ vs gs hgs
    simp only [List.foldl_nil, memberNames, List.filter_nil, List.map_nil, List.append_nil]
    rcases hgs with ⟨rfl, rfl⟩ | ⟨hne, rfl⟩
    · simp
    · rw [if_neg hne]
  | cons fd rest ih =>
    intro hsub vs gs hgs
    have hfd := hsub fd (List.mem_cons_self _ _)
    by_cases hmem : fd.name ∈ ns
    · have hann : annLookup fd key = some [g] := by rw [hfd.1, if_pos hmem]
      have hstep : processFlagGroupAnnot view fd key gs =
          [(g, ns.map (fun n => (n, if n ∈ vs ++ [fd.name] then changed n else false)))] := by
        rcases hgs with ⟨rfl, rfl⟩ | ⟨hne, rfl⟩
        · rw [processFGA_member_empty hann hall hsplit hmem]
          congr 1
          congr 1
          apply List.map_congr_left
          intro n _
          by_cases hn : n = fd.name
          · subst hn
            simp [hfd.2]
          · simp [hn]
        · rw [processFGA_member_existing hann]
          congr 1
          congr 1
          rw [setKV_map hmem (fun n => if n ∈ vs then changed n else false) fd.changed]
          apply List.map_congr_left
          intro n _
          by_cases hn : n = fd.name
          · subst hn
            simp [hfd.2]
          · simp only [hn, if_false]
            by_cases hv : n ∈ vs <;> simp [hv, hn]
      rw [List.foldl_cons, hstep]
      have hrec := ih (fun f hf => hsub f (List.mem_cons_of_mem _ hf)) (vs ++ [fd.name])
        _ (Or.inr ⟨by simp, rfl⟩)
      rw [hrec, memberNames_cons_mem hmem]
      have happ : vs ++ [fd.name] ++ memberNames ns rest = vs ++ fd.name :: memberNames ns rest := by
        simp
      rw [happ]
    · have hann : annLookup fd key = none := by rw [hfd.1, if_neg hmem]
      rw [List.foldl_cons, processFGA_nonmember hann]
      rw [ih (fun f hf => hsub f (List.mem_cons_of_mem _ hf)) vs gs hgs]
      rw [memberNames_cons_notMem hmem]

theorem singleGroupBuild_eq {key g : String} {ns : List String} {changed : String → Bool}
    {view : List FlagDef} (hcfg : SingleGroupConfig key g ns changed view) :
    singleGroupBuild key view = [(g, ns.map (fun n => (n, changed n)))] := by
  obtain ⟨hsplit, hne, hnd, hann, hch, hpres⟩ := hcfg
  have hall : hasAllFlags view (splitSpace g) = true := by
    rw [hsplit]
    unfold hasAllFlags
    rw [List.all_eq_true]
    intro n hn
    obtain ⟨f, hf, hfn⟩ := hpres n hn
    unfold lookupFlag
    rw [List.find?_isSome]
    exact ⟨f, hf, by simp [hfn]⟩
  unfold singleGroupBuild
  rw [singleGroup_fold key g ns changed view hall hsplit view
        (fun f hf => ⟨hann f hf, hch f hf⟩) [] [] (Or.inl ⟨rfl, rfl⟩)]
  simp only [List.nil_append]
  have hmm : ∀ n ∈ ns, n ∈ memberNames ns view := by
    intro n hn
    obtain ⟨f, hf, hfn⟩ := hpres n hn
    unfold memberNames
    rw [List.mem_map]
    refine ⟨f, ?_, hfn⟩
    rw [List.mem_filter]
    refine ⟨hf, ?_⟩
    rw [hfn]
    simp [hn]
  have hne2 : memberNames ns view ≠ [] := by
    rcases hns : ns with _ | ⟨n0, ns'⟩
    · exact absurd hns hne
    · intro h0
      have hmem0 := hmm n0 (by rw [hns]; exact List.mem_cons_self _ _)
      rw [hns] at hmem0
      rw [h0] at hmem0
      simp at hmem0
  rw [if_neg hne2]
  congr 1
  congr 1
  apply List.map_congr_left
  intro n hn
  rw [if_pos (hmm n hn)]

theorem singleGroupBuild_empty {key : String} {view : List FlagDef}
    (h : ∀ f ∈ view, annLookup f key = none) :
    singleGroupBuild key view = [] := by
  unfold singleGroupBuild
  suffices hgen : ∀ (l : List FlagDef), (∀ f ∈ l, annLookup f key = none) →
      l.foldl (fun t f => processFlagGroupAnnot view f key t) [] = ([] : GroupStatus)
    from hgen view h
  intro l hl
  induction l with
  | nil => rfl
  | cons fd rest ih =>
    rw [List.foldl_cons, processFGA_nonmember (hl fd (List.mem_cons_self _ _))]
    exact ih (fun f hf => hl f (List.mem_cons_of_mem _ hf))

theorem buildGroupStatuses_proj (flags : List FlagDef) :
    buildGroupStatuses flags =
      (singleGroupBuild requiredAsGroupAnnot flags,
       singleGroupBuild oneRequiredAnnot flags,
       singleGroupBuild mutuallyExclusiveAnnot flags) := by
  unfold buildGroupStatuses singleGroupBuild
  suffices h : ∀ (l : List FlagDef) (t : GroupStatus × GroupStatus × GroupStatus),
      l.foldl (fun t pflag =>
          (processFlagGroupAnnot flags pflag requiredAsGroupAnnot t.1,
           processFlagGroupAnnot flags pflag oneRequiredAnnot t.2.1,
           processFlagGroupAnnot flags pflag mutuallyExclusiveAnnot t.2.2)) t =
        (l.foldl (fun a f => processFlagGroupAnnot flags f requiredAsGroupAnnot a) t.1,
         l.foldl (fun a f => processFlagGroupAnnot flags f oneRequiredAnnot a) t.2.1,
         l.foldl (fun a f => processFlagGroupAnnot flags f mutuallyExclusiveAnnot a) t.2.2)
    from h flags ([], [], [])
  intro l
  induction l with
  | nil => intro t; rfl
  | cons fd rest ih =>
    intro t
    rw [List.foldl_cons, ih]
    rfl

theorem filterUnset_map (ns : List String) (changed : String → Bool) :
    ((ns.map (fun n => (n, changed n))).filter (fun p => !p.2)).map (·.1) =
      ns.filter (fun n => !changed n) := by
  induction ns with
  | nil => rfl
  | cons n rest ih => by_cases h : changed n <;> simp [List.filter_cons, h, ih]

theorem filterSet_map (ns : List String) (changed : String → Bool) :
    ((ns.map (fun n => (n, changed n))).filter (fun p => p.2)).map (·.1) =
      ns.filter (fun n => changed n) := by
  induction ns with
  | nil => rfl
  | cons n rest ih => by_cases h : changed n <;> simp [List.filter_cons, h, ih]

theorem validateRequire_single (g : String) (ns : List String) (changed : String → Bool) :
    validateRequireFlagGroups [(g, ns.map (fun n => (n, changed n)))] =
      (if (∃ n ∈ ns, changed n = true) ∧ (∃ n ∈ ns, changed n = false) then
        some (.requiredTogether g (sortStrings (ns.filter (fun n => !changed n))))
      else none) := by
  unfold validateRequireFlagGroups sortedKeys
  have hk : sortStrings ([(g, ns.map (fun n => (n, changed n)))].map (·.1)) = [g] := by
    simp [sortStrings, strInsert]
  rw [hk]
  unfold validateRequireGo
  have hlk : gsLookup [(g, ns.map (fun n => (n, changed n)))] g =
      some (ns.map (fun n => (n, changed n))) := by simp [gsLookup]
  rw [hlk]
  simp only [filterUnset_map]
  by_cases hc : (∃ n ∈ ns, changed n = true) ∧ (∃ n ∈ ns, changed n = false)
  · rw [if_pos hc]
    have h1 : ((ns.filter (fun n => !changed n)).length ==
        (ns.map (fun n => (n, changed n))).length) = false := by
      rw [beq_eq_false_iff_ne, List.length_map]
      intro he
      obtain ⟨n, hn, hcn⟩ := hc.1
      have := (filterLengthFull (fun n => !changed n) ns).mp he n hn
      rw [hcn] at this
      simp at this
    have h2 : ((ns.filter (fun n => !changed n)).length == 0) = false := by
      rw [beq_eq_false_iff_ne]
      intro he
      obtain ⟨n, hn, hcn⟩ := hc.2
      rw [List.length_eq_zero] at he
      have := (filterNil (fun n => !changed n) ns).mp he n hn
      rw [hcn] at this
      simp at this
    rw [h1, h2]
    rfl
  · rw [if_neg hc]
    have hcond : ((ns.filter (fun n => !changed n)).length ==
          (ns.map (fun n => (n, changed n))).length
        || (ns.filter (fun n => !changed n)).length == 0) = true := by
      rcases not_and_or.mp hc with hA | hB
      · have hall2 : ∀ n ∈ ns, (!changed n) = true := by
          intro n hn
          cases hcn : changed n
          · simp
          · exact absurd ⟨n, hn, hcn⟩ hA
        have hlen : (ns.filter (fun n => !changed n)).length = ns.length :=
          (filterLengthFull (fun n => !changed n) ns).mpr hall2
        simp [hlen, List.length_map]
      · have hnil : ns.filter (fun n => !changed n) = [] := by
          rw [filterNil]
          intro n hn
          cases hcn : changed n
          · exact absurd ⟨n, hn, hcn⟩ hB
          · simp [hcn]
        simp [hnil]
    rcases Bool.or_eq_true_iff.mp hcond with h | h
    · rw [h]
      simp [validateRequireGo]
    · rw [h]
      simp [validateRequireGo]

theorem validateOneRequired_single (g : String) (ns : List String) (changed : String → Bool) :
    validateOneRequiredFlagGroups [(g, ns.map (fun n => (n, changed n)))] =
      (if ∃ n ∈ ns, changed n = true then none else some (.oneRequired g)) := by
  unfold validateOneRequiredFlagGroups sortedKeys
  have hk : sortStrings ([(g, ns.map (fun n => (n, changed n)))].map (·.1)) = [g] := by
    simp [sortStrings, strInsert]
  rw [hk]
  unfold validateOneRequiredGo
  have hlk : gsLookup [(g, ns.map (fun n => (n, changed n)))] g =
      some (ns.map (fun n => (n, changed n))) := by simp [gsLookup]
  rw [hlk]
  simp only [filterSet_map]
  by_cases hc : ∃ n ∈ ns, changed n = true
  · rw [if_pos hc]
    obtain ⟨n, hn, hcn⟩ := hc
    have hlen : 1 ≤ (ns.filter (fun n => changed n)).length := by
      have : n ∈ ns.filter (fun n => changed n) := by
        rw [List.mem_filter]
        exact ⟨hn, hcn⟩
      rcases hfl : ns.filter (fun n => changed n) with _ | ⟨x, xs⟩
      · rw [hfl] at this; simp at this
      · simp
    rw [if_pos hlen]
    simp [validateOneRequiredGo]
  · rw [if_neg hc]
    have hnil : ns.filter (fun n => changed n) = [] := by
      rw [filterNil]
      intro n hn hcn
      exact hc ⟨n, hn, hcn⟩
    rw [hnil]
    simp

theorem validateExclusive_single (g : String) (ns : List String) (changed : String → Bool) :
    validateExclusiveFlagGroups [(g, ns.map (fun n => (n, changed n)))] =
      (if (ns.filter (fun n => changed n)).length ≤ 1 then none
       else some (.exclusive g (sortStrings (ns.filter (fun n => changed n))))) := by
  unfold validateExclusiveFlagGroups sortedKeys
  have hk : sortStrings ([(g, ns.map (fun n => (n, changed n)))].map (·.1)) = [g] := by
    simp [sortStrings, strInsert]
  rw [hk]
  unfold validateExclusiveGo
  have hlk : gsLookup [(g, ns.map (fun n => (n, changed n)))] g =
      some (ns.map (fun n => (n, changed n))) := by simp [gsLookup]
  rw [hlk]
  simp only [filterSet_map]
  by_cases hc : (ns.filter (fun n => changed n)).length ≤ 1
  · rw [if_pos hc]
    have : ((ns.filter (fun n => changed n)).length == 0
        || (ns.filter (fun n => changed n)).length == 1) = true := by
      interval_cases h : (ns.filter (fun n => changed n)).length
      · simp
      · simp
    rw [this]
    simp [validateExclusiveGo]
  · rw [if_neg hc]
    have h0 : ((ns.filter (fun n => changed n)).length == 0) = false := by
      rw [beq_eq_false_iff_ne]
      omega
    have h1 : ((ns.filter (fun n => changed n)).length == 1) = false := by
      rw [beq_eq_false_iff_ne]
      omega
    rw [h0, h1]
    rfl

/-- `ValidateFlagGroups` on a view configured with one required-together
group: error exactly when the group is mixed, naming the sorted unchanged
members. -/
theorem validateFlagGroups_required_char (c : Command) (g : String) (ns : List String)
    (changed : String → Bool)
    (hdfp : c.disableFlagParsing = false)
    (hcfg : SingleGroupConfig requiredAsGroupAnnot g ns changed c.flags)
    (hone : ∀ f ∈ c.flags, annLookup f oneRequiredAnnot = none)
    (hmut : ∀ f ∈ c.flags, annLookup f mutuallyExclusiveAnnot = none) :
    ValidateFlagGroups c =
      (if (∃ n ∈ ns, changed n = true) ∧ (∃ n ∈ ns, changed n = false) then
        some (.requiredTogether g (sortStrings (ns.filter (fun n => !changed n))))
      else none) := by
  unfold ValidateFlagGroups
  rw [hdfp]
  simp only [Bool.false_eq_true, if_false]
  rw [buildGroupStatuses_proj, singleGroupBuild_eq hcfg, singleGroupBuild_empty hone,
    singleGroupBuild_empty hmut]
  rw [validateRequire_single]
  by_cases hc : (∃ n ∈ ns, changed n = true) ∧ (∃ n ∈ ns, changed n = false)
  · rw [if_pos hc]
  · rw [if_neg hc]
    rfl

/-- C2: with flag parsing enabled and a required-together group all of
whose members are present in the resolved flag view (and no other group
annotations in play), `ValidateFlagGroups` returns an error exactly when
the group has at least one changed and at least one unchanged member, and
the error names the group and exactly the unchanged members, sorted
lexically; with zero changed members or all members changed it returns
`nil`. -/
theorem validateFlagGroups_requiredTogether (c : Command) (g : String) (ns : List String)
    (changed : String → Bool)
    (hdfp : c.disableFlagParsing = false)
    (hcfg : SingleGroupConfig requiredAsGroupAnnot g ns changed c.flags)
    (hone : ∀ f ∈ c.flags, annLookup f oneRequiredAnnot = none)
    (hmut : ∀ f ∈ c.flags, annLookup f mutuallyExclusiveAnnot = none) :
    ValidateFlagGroups c =
      (if (∃ n ∈ ns, changed n = true) ∧ (∃ n ∈ ns, changed n = false) then
        some (.requiredTogether g (sortStrings (ns.filter (fun n => !changed n))))
      else none) :=
  validateFlagGroups_required_char c g ns changed hdfp hcfg hone hmut

/-- Witness for C2: group `{a, b, c}` with only `a` set fails validation
naming `[b, c]` sorted; the same group with none or all set succeeds. -/
theorem validateFlagGroups_requiredTogether_witness :
    ValidateFlagGroups c2Cmd =
      some (.requiredTogether "a b c" ["b", "c"])
    ∧ ValidateFlagGroups (mkCmd "root" (c2Flags.map (fun f => { f with changed := true })) []) =
        none
    ∧ ValidateFlagGroups (mkCmd "root" (c2Flags.map (fun f => { f with changed := false })) []) =
        none := by
  refine ⟨?_, ?_, ?_⟩
  · have h := validateFlagGroups_requiredTogether c2Cmd "a b c" ["a", "b", "c"]
      (fun n => n == "a") rfl
      ⟨by decide, by decide, by decide, by decide, by decide, by decide⟩
      (by decide) (by decide)
    rw [h]
    decide
  · have h := validateFlagGroups_requiredTogether
      (mkCmd "root" (c2Flags.map (fun f => { f with changed := true })) []) "a b c"
      ["a", "b", "c"] (fun _ => true) rfl
      ⟨by decide, by decide, by decide, by decide, by decide, by decide⟩
      (by decide) (by decide)
    rw [h]
    decide
  · have h := validateFlagGroups_requiredTogether
      (mkCmd "root" (c2Flags.map (fun f => { f with changed := false })) []) "a b c"
      ["a", "b", "c"] (fun _ => false) rfl
      ⟨by decide, by decide, by decide, by decide, by decide, by decide⟩
      (by decide) (by decide)
    rw [h]
    decide

theorem gsLookup_map_update {gs : GroupStatus} {gq g : String} (h : ¬(gq = g))
    (m : MemberStatus) :
    gsLookup (gs.map (fun p => if p.1 == gq then (p.1, m) else p)) g = gsLookup gs g := by
  unfold gsLookup
  induction gs with
  | nil => rfl
  | cons p rest ih =>
    simp only [List.map_cons, List.find?]
    by_cases hpq : (p.1 == gq) = true
    · rw [if_pos hpq]
      by_cases hpg : (p.1 == g) = true
      · rw [beq_iff_eq] at hpq hpg
        exact absurd (hpq ▸ hpg) h
      · simp only [List.find?]
        have hb : (p.1 == g) = false := by
          cases hx : (p.1 == g)
          · rfl
          · exact absurd hx hpg
        simp only [hb]
        exact ih
    · rw [if_neg hpq]
      by_cases hpg : (p.1 == g) = true
      · simp [List.find?, hpg]
      · have hb : (p.1 == g) = false := by
          cases hx : (p.1 == g)
          · rfl
          · exact absurd hx hpg
        simp only [List.find?, hb]
        exact ih

theorem gsLookup_append_ne {gs : GroupStatus} {gq g : String} (h : ¬(gq = g))
    (m : MemberStatus) :
    gsLookup (gs ++ [(gq, m)]) g = gsLookup gs g := by
  unfold gsLookup
  induction gs with
  | nil =>
    have hb : (gq == g) = false := by
      rw [beq_eq_false_iff_ne]
      exact h
    simp [List.find?, hb]
  | cons p rest ih =>
    simp only [List.cons_append, List.find?]
    by_cases hpg : (p.1 == g) = true
    · simp [hpg]
    · have hb : (p.1 == g) = false := by
        cases hx : (p.1 == g)
        · rfl
        · exact absurd hx hpg
      simp only [hb]
      exact ih

theorem gsLookup_gsSet_ne {gs : GroupStatus} {gq g : String} (h : ¬(gq = g))
    (m : MemberStatus) :
    gsLookup (gsSet gs gq m) g = gsLookup gs g := by
  unfold gsSet
  by_cases hf : ((gs.find? (fun p => p.1 == gq)).isSome : Prop)
  · rw [if_pos hf]
    exact gsLookup_map_update h m
  · rw [if_neg hf]
    exact gsLookup_append_ne h m

theorem gsLookup_fga_fold_absent (view : List FlagDef) (fd : FlagDef) (g : String)
    (habs : hasAllFlags view (splitSpace g) = false) :
    ∀ (groupInfo : List String) (gs : GroupStatus), gsLookup gs g = none →
      gsLookup (groupInfo.foldl (fun gs group =>
        match gsLookup gs group with
        | none =>
          let flagnames := splitSpace group
          if !hasAllFlags view flagnames then gs
          else
            let initd : MemberStatus := flagnames.map (fun n => (n, false))
            gsSet gs group (setKV initd fd.name fd.changed)
        | some m => gsSet gs group (setKV m fd.name fd.changed)) gs) g = none := by
  intro groupInfo
  induction groupInfo with
  | nil => intro gs h; exact h
  | cons gq rest ih =>
    intro gs hgs
    rw [List.foldl_cons]
    refine ih _ ?_
    split
    · show gsLookup (if (!hasAllFlags view (splitSpace gq)) = true then gs
          else gsSet gs gq
            (setKV (List.map (fun n => (n, false)) (splitSpace gq)) fd.name fd.changed)) g = none
      split
      · exact hgs
      · rename_i hcond
        by_cases hgq : gq = g
        · subst hgq
          rw [habs] at hcond
          simp at hcond
        · rw [gsLookup_gsSet_ne hgq]
          exact hgs
    · rename_i m hm
      by_cases hgq : gq = g
      · subst hgq
        rw [hgs] at hm
        exact Option.noConfusion hm
      · rw [gsLookup_gsSet_ne hgq]
        exact hgs

/-- A group signature whose member list does not fully resolve in the
view is never materialized by `processFlagGroupAnnot`. -/
theorem gsLookup_processFGA_absent {view : List FlagDef} {fd : FlagDef} {key g : String}
    {gs : GroupStatus}
    (habs : hasAllFlags view (splitSpace g) = false)
    (hgs : gsLookup gs g = none) :
    gsLookup (processFlagGroupAnnot view fd key gs) g = none := by
  unfold processFlagGroupAnnot
  cases hann : annLookup fd key with
  | none => exact hgs
  | some groupInfo => exact gsLookup_fga_fold_absent view fd g habs groupInfo gs hgs

theorem validateRequireGo_group {data : GroupStatus} :
    ∀ {keys : List String} {e : FlagGroupError},
      validateRequireGo data keys = some e → (gsLookup data e.group).isSome := by
  intro keys
  induction keys with
  | nil => intro e h; simp [validateRequireGo] at h
  | cons g rest ih =>
    intro e h
    unfold validateRequireGo at h
    split at h
    · exact ih h
    · rename_i m hm
      by_cases hc : (((List.filter (fun p => !p.2) m).map (fun x => x.1)).length == m.length
          || ((List.filter (fun p => !p.2) m).map (fun x => x.1)).length == 0) = true
      · simp only [List.map, hc, if_true] at h
        exact ih h
      · have hc2 : (((List.filter (fun p => !p.2) m).map (fun x => x.1)).length == m.length
            || ((List.filter (fun p => !p.2) m).map (fun x => x.1)).length == 0) = false := by
          cases hx : (((List.filter (fun p => !p.2) m).map (fun x => x.1)).length == m.length
            || ((List.filter (fun p => !p.2) m).map (fun x => x.1)).length == 0)
          · rfl
          · exact absurd hx hc
        simp only [List.map, hc2, Bool.false_eq_true, if_false, Option.some_inj] at h
        subst h
        simp [FlagGroupError.group, hm]

theorem validateOneRequiredGo_group {data : GroupStatus} :
    ∀ {keys : List String} {e : FlagGroupError},
      validateOneRequiredGo data keys = some e → (gsLookup data e.group).isSome := by
  intro keys
  induction keys with
  | nil => intro e h; simp [validateOneRequiredGo] at h
  | cons g rest ih =>
    intro e h
    unfold validateOneRequiredGo at h
    split at h
    · exact ih h
    · rename_i m hm
      by_cases hc : 1 ≤ ((List.filter (fun p => p.2) m).map (fun x => x.1)).length
      · simp only [List.map, hc, if_true] at h
        exact ih h
      · simp only [List.map, hc, if_false] at h
        rw [Option.some_inj] at h
        subst h
        simp [FlagGroupError.group, hm]

theorem validateExclusiveGo_group {data : GroupStatus} :
    ∀ {keys : List String} {e : FlagGroupError},
      validateExclusiveGo data keys = some e → (gsLookup data e.group).isSome := by
  intro keys
  induction keys with
  | nil => intro e h; simp [validateExclusiveGo] at h
  | cons g rest ih =>
    intro e h
    unfold validateExclusiveGo at h
    split at h
    · exact ih h
    · rename_i m hm
      by_cases hc : (((List.filter (fun p => p.2) m).map (fun x => x.1)).length == 0
          || ((List.filter (fun p => p.2) m).map (fun x => x.1)).length == 1) = true
      · simp only [List.map, hc, if_true] at h
        exact ih h
      · have hc2 : (((List.filter (fun p => p.2) m).map (fun x => x.1)).length == 0
            || ((List.filter (fun p => p.2) m).map (fun x => x.1)).length == 1) = false := by
          cases hx : (((List.filter (fun p => p.2) m).map (fun x => x.1)).length == 0
            || ((List.filter (fun p => p.2) m).map (fun x => x.1)).length == 1)
          · rfl
          · exact absurd hx hc
        simp only [List.map, hc2, Bool.false_eq_true, if_false, Option.some_inj] at h
        subst h
        simp [FlagGroupError.group, hm]

/-- C6: in each of the three passes of `ValidateFlagGroups`, a group
signature naming a flag absent from the resolved flag view contributes no
entry to that pass's status table, and no validation error can name that
group. -/
theorem flagGroup_absent_member_skipped (c : Command) (g : String)
    (habs : hasAllFlags c.flags (splitSpace g) = false) :
    gsLookup (buildGroupStatuses c.flags).1 g = none
    ∧ gsLookup (buildGroupStatuses c.flags).2.1 g = none
    ∧ gsLookup (buildGroupStatuses c.flags).2.2 g = none
    ∧ (∀ e, ValidateFlagGroups c = some e → e.group ≠ g) := by
  have hb : ∀ key, gsLookup (singleGroupBuild key c.flags) g = none := by
    intro key
    unfold singleGroupBuild
    suffices hf : ∀ (l : List FlagDef) (gs : GroupStatus), gsLookup gs g = none →
        gsLookup (l.foldl (fun t f => processFlagGroupAnnot c.flags f key t) gs) g = none
      from hf c.flags [] rfl
    intro l
    induction l with
    | nil => intro gs h; exact h
    | cons fd rest ih =>
      intro gs h
      rw [List.foldl_cons]
      exact ih _ (gsLookup_processFGA_absent habs h)
  refine ⟨?_, ?_, ?_, ?_⟩
  · rw [buildGroupStatuses_proj]; exact hb _
  · rw [buildGroupStatuses_proj]; exact hb _
  · rw [buildGroupStatuses_proj]; exact hb _
  · intro e he heg
    subst heg
    unfold ValidateFlagGroups at he
    by_cases hdfp : c.disableFlagParsing = true
    · rw [hdfp] at he
      simp at he
    · have hdfp2 : c.disableFlagParsing = false := by
        cases hx : c.disableFlagParsing
        · rfl
        · exact absurd hx hdfp
      rw [hdfp2] at he
      simp only [Bool.false_eq_true, if_false] at he
      rw [buildGroupStatuses_proj] at he
      split at he
      · rename_i e₁ h₁
        injection he with he
        subst he
        have := validateRequireGo_group h₁
        rw [hb] at this
        simp at this
      · split at he
        · rename_i e₂ h₂
          injection he with he
          subst he
          have := validateOneRequiredGo_group h₂
          rw [hb] at this
          simp at this
        · have := validateExclusiveGo_group he
          rw [hb] at this
          simp at this

/-- Witness for C6: flag `a` declares the required-together signature
`a b` while `b` is absent from the view — the group materializes in no
table and validation reports nothing about it. -/
theorem flagGroup_absent_member_skipped_witness :
    gsLookup (buildGroupStatuses c6Cmd.flags).1 "a b" = none
    ∧ (∀ e, ValidateFlagGroups c6Cmd = some e → e.group ≠ "a b") :=
  ⟨(flagGroup_absent_member_skipped c6Cmd "a b" (by decide)).1,
   (flagGroup_absent_member_skipped c6Cmd "a b" (by decide)).2.2.2⟩

/-- `ValidateFlagGroups` on a view configured with one one-required
group: error exactly when no member is changed. -/
theorem validateFlagGroups_oneRequired_char (c : Command) (g : String) (ns : List String)
    (changed : String → Bool)
    (hdfp : c.disableFlagParsing = false)
    (hcfg : SingleGroupConfig oneRequiredAnnot g ns changed c.flags)
    (hreq : ∀ f ∈ c.flags, annLookup f requiredAsGroupAnnot = none)
    (hmut : ∀ f ∈ c.flags, annLookup f mutuallyExclusiveAnnot = none) :
    ValidateFlagGroups c =
      (if ∃ n ∈ ns, changed n = true then none else some (.oneRequired g)) := by
  unfold ValidateFlagGroups
  rw [hdfp]
  simp only [Bool.false_eq_true, if_false]
  rw [buildGroupStatuses_proj, singleGroupBuild_eq hcfg, singleGroupBuild_empty hreq,
    singleGroupBuild_empty hmut]
  rw [validateOneRequired_single]
  by_cases hc : ∃ n ∈ ns, changed n = true
  · rw [if_pos hc]
    rfl
  · rw [if_neg hc]
    rfl

/-- `ValidateFlagGroups` on a view configured with one mutually-exclusive
group: error exactly when two or more members are changed, naming the
sorted changed members. -/
theorem validateFlagGroups_exclusive_char (c : Command) (g : String) (ns : List String)
    (changed : String → Bool)
    (hdfp : c.disableFlagParsing = false)
    (hcfg : SingleGroupConfig mutuallyExclusiveAnnot g ns changed c.flags)
    (hreq : ∀ f ∈ c.flags, annLookup f requiredAsGroupAnnot = none)
    (hone : ∀ f ∈ c.flags, annLookup f oneRequiredAnnot = none) :
    ValidateFlagGroups c =
      (if (ns.filter (fun n => changed n)).length ≤ 1 then none
       else some (.exclusive g (sortStrings (ns.filter (fun n => changed n))))) := by
  unfold ValidateFlagGroups
  rw [hdfp]
  simp only [Bool.false_eq_true, if_false]
  rw [buildGroupStatuses_proj, singleGroupBuild_eq hcfg, singleGroupBuild_empty hreq,
    singleGroupBuild_empty hone]
  rw [validateExclusive_single]
  by_cases hc : (ns.filter (fun n => changed n)).length ≤ 1
  · rw [if_pos hc]
    rfl
  · rw [if_neg hc]
    rfl

theorem singleGroupView_config (key g : String) (ns : List String) (changed : String → Bool)
    (hsplit : splitSpace g = ns) (hne : ns ≠ []) (hnd : ns.Nodup) :
    SingleGroupConfig key g ns changed (singleGroupView key g ns changed) := by
  refine ⟨hsplit, hne, hnd, ?_, ?_, ?_⟩
  · intro f hf
    obtain ⟨n, hn, rfl⟩ := List.mem_map.mp hf
    rw [if_pos hn]
    simp [annLookup, List.find?]
  · intro f hf
    obtain ⟨n, hn, rfl⟩ := List.mem_map.mp hf
    rfl
  · intro n hn
    exact ⟨⟨n, "", "", changed n, false, [(key, [g])]⟩, List.mem_map_of_mem _ hn, rfl⟩

theorem singleGroupView_other_none {key key' g : String} {ns : List String}
    {changed : String → Bool} (hk : key ≠ key') :
    ∀ f ∈ singleGroupView key g ns changed, annLookup f key' = none := by
  intro f hf
  obtain ⟨n, hn, rfl⟩ := List.mem_map.mp hf
  have hb : (key == key') = false := beq_eq_false_iff_ne.mpr hk
  simp [annLookup, List.find?, hb]

/-- C8: for each of the three group kinds, two single-group declarations
over the same member set that differ only in declared member order (and
hence in stored signature string) are accepted or rejected identically by
`ValidateFlagGroups` for every assignment of changed states. -/
theorem validateFlagGroups_order_independent (key g₁ g₂ : String) (ns₁ ns₂ : List String)
    (changed : String → Bool)
    (hkey : key = requiredAsGroupAnnot ∨ key = oneRequiredAnnot
      ∨ key = mutuallyExclusiveAnnot)
    (hperm : ns₁.Perm ns₂)
    (hnd : ns₁.Nodup) (hne : ns₁ ≠ [])
    (hg₁ : splitSpace g₁ = ns₁) (hg₂ : splitSpace g₂ = ns₂) :
    (ValidateFlagGroups (groupCmd key g₁ ns₁ changed) = none ↔
      ValidateFlagGroups (groupCmd key g₂ ns₂ changed) = none) := by
  have hnd₂ : ns₂.Nodup := hperm.nodup hnd
  have hne₂ : ns₂ ≠ [] := by
    intro h2
    exact hne (List.Perm.eq_nil (h2 ▸ hperm))
  have hex : ∀ (p : String → Prop), (∃ n ∈ ns₁, p n) ↔ (∃ n ∈ ns₂, p n) := by
    intro p
    constructor
    · rintro ⟨n, hn, hp⟩
      exact ⟨n, hperm.mem_iff.mp hn, hp⟩
    · rintro ⟨n, hn, hp⟩
      exact ⟨n, hperm.mem_iff.mpr hn, hp⟩
  rcases hkey with rfl | rfl | rfl
  · have hd₁ : requiredAsGroupAnnot ≠ oneRequiredAnnot := by decide
    have hd₂ : requiredAsGroupAnnot ≠ mutuallyExclusiveAnnot := by decide
    rw [validateFlagGroups_required_char (groupCmd requiredAsGroupAnnot g₁ ns₁ changed) g₁ ns₁ changed rfl
      (singleGroupView_config _ g₁ ns₁ changed hg₁ hne hnd)
      (singleGroupView_other_none hd₁) (singleGroupView_other_none hd₂)]
    rw [validateFlagGroups_required_char (groupCmd requiredAsGroupAnnot g₂ ns₂ changed) g₂ ns₂ changed rfl
      (singleGroupView_config _ g₂ ns₂ changed hg₂ hne₂ hnd₂)
      (singleGroupView_other_none hd₁) (singleGroupView_other_none hd₂)]
    by_cases hc : (∃ n ∈ ns₁, changed n = true) ∧ (∃ n ∈ ns₁, changed n = false)
    · rw [if_pos hc, if_pos ((and_congr (hex _) (hex _)).mp hc)]
      simp
    · rw [if_neg hc, if_neg (fun hb => hc ((and_congr (hex _) (hex _)).mpr hb))]
  · have hd₁ : oneRequiredAnnot ≠ requiredAsGroupAnnot := by decide
    have hd₂ : oneRequiredAnnot ≠ mutuallyExclusiveAnnot := by decide
    rw [validateFlagGroups_oneRequired_char (groupCmd oneRequiredAnnot g₁ ns₁ changed) g₁ ns₁ changed rfl
      (singleGroupView_config _ g₁ ns₁ changed hg₁ hne hnd)
      (singleGroupView_other_none hd₁) (singleGroupView_other_none hd₂)]
    rw [validateFlagGroups_oneRequired_char (groupCmd oneRequiredAnnot g₂ ns₂ changed) g₂ ns₂ changed rfl
      (singleGroupView_config _ g₂ ns₂ changed hg₂ hne₂ hnd₂)
      (singleGroupView_other_none hd₁) (singleGroupView_other_none hd₂)]
    by_cases hc : ∃ n ∈ ns₁, changed n = true
    · rw [if_pos hc, if_pos ((hex _).mp hc)]
    · rw [if_neg hc, if_neg (fun hb => hc ((hex _).mpr hb))]
      simp
  · have hd₁ : mutuallyExclusiveAnnot ≠ requiredAsGroupAnnot := by decide
    have hd₂ : mutuallyExclusiveAnnot ≠ oneRequiredAnnot := by decide
    rw [validateFlagGroups_exclusive_char (groupCmd mutuallyExclusiveAnnot g₁ ns₁ changed) g₁ ns₁ changed rfl
      (singleGroupView_config _ g₁ ns₁ changed hg₁ hne hnd)
      (singleGroupView_other_none hd₁) (singleGroupView_other_none hd₂)]
    rw [validateFlagGroups_exclusive_char (groupCmd mutuallyExclusiveAnnot g₂ ns₂ changed) g₂ ns₂ changed rfl
      (singleGroupView_config _ g₂ ns₂ changed hg₂ hne₂ hnd₂)
      (singleGroupView_other_none hd₁) (singleGroupView_other_none hd₂)]
    have hlen : (ns₁.filter (fun n => changed n)).length =
        (ns₂.filter (fun n => changed n)).length :=
      (hperm.filter _).length_eq
    by_cases hc : (ns₁.filter (fun n => changed n)).length ≤ 1
    · rw [if_pos hc, if_pos (hlen ▸ hc)]
    · rw [if_neg hc, if_neg (fun hb => hc (hlen ▸ hb))]
      simp

/-- Witness for C8: the required-together group declared `[a, b]` (stored
signature `a b`) is accepted exactly when the one declared `[b, a]`
(stored signature `b a`) is, with only `a` set. -/
theorem validateFlagGroups_order_independent_witness :
    (ValidateFlagGroups
        (groupCmd requiredAsGroupAnnot "a b" ["a", "b"] (fun n => n == "a")) = none ↔
      ValidateFlagGroups
        (groupCmd requiredAsGroupAnnot "b a" ["b", "a"] (fun n => n == "a")) = none) :=
  validateFlagGroups_order_independent requiredAsGroupAnnot "a b" "b a"
    ["a", "b"] ["b", "a"] (fun n => n == "a") (Or.inl rfl) (by decide) (by decide)
    (by decide) (by decide) (by decide)

theorem lookupFlag_map_pres {t : FlagDef → FlagDef} (ht : ∀ f, (t f).name = f.name)
    (fs : List FlagDef) (k : String) :
    lookupFlag (fs.map t) k = (lookupFlag fs k).map t := by
  unfold lookupFlag
  induction fs with
  | nil => rfl
  | cons f rest ih =>
    simp only [List.map_cons, List.find?]
    rw [ht f]
    by_cases h : (f.name == k) = true
    · simp [h]
    · have hb : (f.name == k) = false := by
        cases hx : (f.name == k)
        · rfl
        · exact absurd hx h
      simp only [hb]
      exact ih

theorem lookupFlag_name {fs : List FlagDef} {n : String} {f : FlagDef}
    (h : lookupFlag fs n = some f) : f.name = n := by
  unfold lookupFlag at h
  have := List.find?_some h
  rwa [beq_iff_eq] at this

theorem lookupFlag_isSome_iff {fs : List FlagDef} {n : String} :
    (lookupFlag fs n).isSome ↔ n ∈ namesOf fs := by
  unfold lookupFlag namesOf
  rw [List.find?_isSome]
  constructor
  · rintro ⟨f, hf, hp⟩
    rw [beq_iff_eq] at hp
    exact hp ▸ List.mem_map_of_mem _ hf
  · intro h
    obtain ⟨f, hf, hfn⟩ := List.mem_map.mp h
    exact ⟨f, hf, by simp [hfn]⟩

theorem namesOf_map_pres {t : FlagDef → FlagDef} (ht : ∀ f, (t f).name = f.name)
    (fs : List FlagDef) : namesOf (fs.map t) = namesOf fs := by
  unfold namesOf
  rw [List.map_map]
  exact List.map_congr_left (fun f _ => ht f)

theorem namesOf_setAnnot (fs : List FlagDef) (name key : String) (vals : List String) :
    namesOf (setAnnot fs name key vals) = namesOf fs :=
  namesOf_map_pres (fun f => by by_cases h : (f.name == name) = true <;> simp [setAnnot, h]) fs

theorem namesOf_markFlagRequired (fs : List FlagDef) (name : String) :
    namesOf (markFlagRequired fs name) = namesOf fs :=
  namesOf_setAnnot fs name BashCompOneRequiredFlag ["true"]

theorem namesOf_markFold :
    ∀ (names : List String) (fs : List FlagDef),
      namesOf (names.foldl (fun fs n => markFlagRequired fs n) fs) = namesOf fs := by
  intro names
  induction names with
  | nil => intro fs; rfl
  | cons n rest ih =>
    intro fs
    rw [List.foldl_cons, ih, namesOf_markFlagRequired]

theorem findMap_update :
    ∀ (anns : List (String × List String)) (key : String) (vals : List String),
      (anns.find? (fun p => p.1 == key)).isSome →
      ((anns.map (fun p => if p.1 == key then (p.1, vals) else p)).find?
          (fun p => p.1 == key)).map (fun x => x.2) = some vals := by
  intro anns key vals
  induction anns with
  | nil => intro hf; simp at hf
  | cons p rest ih =>
    intro hf
    by_cases h : (p.1 == key) = true
    · simp [List.find?, h]
    · have hb : (p.1 == key) = false := by
        cases hx : (p.1 == key)
        · rfl
        · exact absurd hx h
      simp only [List.map_cons, hb, Bool.false_eq_true, if_false]
      simp only [List.find?, hb]
      apply ih
      simp only [List.find?, hb] at hf
      exact hf

theorem findMap_append :
    ∀ (anns : List (String × List String)) (key : String) (vals : List String),
      anns.find? (fun p => p.1 == key) = none →
      ((anns ++ [(key, vals)]).find? (fun p => p.1 == key)).map (fun x => x.2) = some vals := by
  intro anns key vals
  induction anns with
  | nil => intro _; simp [List.find?]
  | cons p rest ih =>
    intro hf
    by_cases h : (p.1 == key) = true
    · simp only [List.find?, h] at hf
      exact Option.noConfusion hf
    · have hb : (p.1 == key) = false := by
        cases hx : (p.1 == key)
        · rfl
        · exact absurd hx h
      simp only [List.find?, hb] at hf
      rw [List.cons_append]
      simp only [List.find?, hb]
      exact ih hf

theorem annFind_annSet_self (anns : List (String × List String)) (key : String)
    (vals : List String) :
    ((annSet anns key vals).find? (fun p => p.1 == key)).map (fun x => x.2) = some vals := by
  unfold annSet
  by_cases hf : ((anns.find? (fun p => p.1 == key)).isSome = true)
  · rw [if_pos hf]
    exact findMap_update anns key vals hf
  · rw [if_neg hf]
    refine findMap_append anns key vals ?_
    cases hx : anns.find? (fun p => p.1 == key)
    · rfl
    · exact absurd (by rw [hx]; rfl) hf

theorem isMarkedRequired_mark_self (fs : List FlagDef) (n : String)
    (hpres : n ∈ namesOf fs) :
    isMarkedRequired (markFlagRequired fs n) n = true := by
  unfold isMarkedRequired markFlagRequired setAnnot
  rw [lookupFlag_map_pres
    (fun f => by by_cases h : (f.name == n) = true <;> simp [h]) fs n]
  cases hlk : lookupFlag fs n with
  | none =>
    exfalso
    have := lookupFlag_isSome_iff.mpr hpres
    rw [hlk] at this
    simp at this
  | some f =>
    have hname : (f.name == n) = true := by
      rw [beq_iff_eq]
      exact lookupFlag_name hlk
    simp only [Option.map_some', hname, if_true]
    have hset : annLookup
        { f with annotations := annSet f.annotations BashCompOneRequiredFlag ["true"] }
        BashCompOneRequiredFlag = some ["true"] :=
      annFind_annSet_self f.annotations BashCompOneRequiredFlag ["true"]
    rw [hset]
    simp

theorem isMarkedRequired_mark_mono (fs : List FlagDef) (n m : String)
    (h : isMarkedRequired fs n = true) :
    isMarkedRequired (markFlagRequired fs m) n = true := by
  unfold isMarkedRequired at h ⊢
  unfold markFlagRequired setAnnot
  rw [lookupFlag_map_pres
    (fun f => by by_cases hx : (f.name == m) = true <;> simp [hx]) fs n]
  cases hlk : lookupFlag fs n with
  | none =>
    rw [hlk] at h
    exact Bool.noConfusion h
  | some f =>
    rw [hlk] at h
    simp only [Option.map_some']
    by_cases hm : (f.name == m) = true
    · simp only [hm, if_true]
      have hset : annLookup
          { f with annotations := annSet f.annotations BashCompOneRequiredFlag ["true"] }
          BashCompOneRequiredFlag = some ["true"] :=
        annFind_annSet_self f.annotations BashCompOneRequiredFlag ["true"]
      rw [hset]
      simp
    · simp only [hm, if_false]
      exact h

theorem markFold_mono :
    ∀ (names : List String) (fs : List FlagDef) (n : String),
      isMarkedRequired fs n = true →
      isMarkedRequired (names.foldl (fun fs m => markFlagRequired fs m) fs) n = true := by
  intro names
  induction names with
  | nil => intro fs n h; exact h
  | cons m rest ih =>
    intro fs n h
    rw [List.foldl_cons]
    exact ih _ n (isMarkedRequired_mark_mono fs n m h)

theorem markFold_marks :
    ∀ (names : List String) (fs : List FlagDef) (n : String),
      n ∈ names → n ∈ namesOf fs →
      isMarkedRequired (names.foldl (fun fs m => markFlagRequired fs m) fs) n = true := by
  intro names
  induction names with
  | nil => intro fs n h _; simp at h
  | cons m rest ih =>
    intro fs n hmem hpres
    rw [List.foldl_cons]
    rcases List.mem_cons.mp hmem with rfl | hrest
    · exact markFold_mono rest _ n (isMarkedRequired_mark_self fs n hpres)
    · refine ih _ n hrest ?_
      rw [namesOf_markFlagRequired]
      exact hpres

theorem keys_gsSet_sub {gs : GroupStatus} {g k : String} {m : MemberStatus}
    (h : k ∈ (gsSet gs g m).map (fun p => p.1)) :
    k ∈ gs.map (fun p => p.1) ∨ k = g := by
  unfold gsSet at h
  split at h
  · left
    rw [List.map_map] at h
    have hcong : ∀ p ∈ gs,
        ((fun p => p.1) ∘ fun p => if p.1 == g then (p.1, m) else p) p = p.1 := by
      intro p _
      by_cases hx : p.1 = g <;> simp [hx]
    rwa [List.map_congr_left hcong] at h
  · rw [List.map_append] at h
    rcases List.mem_append.mp h with h | h
    · left; exact h
    · right; simpa using h

theorem gsLookup_mem_keys {gs : GroupStatus} {g : String} {m : MemberStatus}
    (h : gsLookup gs g = some m) : g ∈ gs.map (fun p => p.1) := by
  unfold gsLookup at h
  cases hf : gs.find? (fun p => p.1 == g) with
  | none => rw [hf] at h; exact Option.noConfusion h
  | some q =>
    have hq := List.find?_some hf
    rw [beq_iff_eq] at hq
    exact hq ▸ List.mem_map_of_mem _ (List.mem_of_find?_eq_some hf)

theorem fga_fold_keys (view : List FlagDef) (fd : FlagDef) :
    ∀ (groupInfo : List String) (gs : GroupStatus),
      (∀ k ∈ gs.map (fun p => p.1), hasAllFlags view (splitSpace k) = true) →
      ∀ k ∈ ((groupInfo.foldl (fun gs group =>
          match gsLookup gs group with
          | none =>
            let flagnames := splitSpace group
            if !hasAllFlags view flagnames then gs
            else
              let initd : MemberStatus := flagnames.map (fun n => (n, false))
              gsSet gs group (setKV initd fd.name fd.changed)
          | some m => gsSet gs group (setKV m fd.name fd.changed)) gs).map (fun p => p.1)),
        hasAllFlags view (splitSpace k) = true := by
  intro groupInfo
  induction groupInfo with
  | nil => intro gs hinv; exact hinv
  | cons gq rest ih =>
    intro gs hinv
    rw [List.foldl_cons]
    refine ih _ ?_
    rcases hgsl : gsLookup gs gq with _ | m
    · show ∀ k ∈ ((if (!hasAllFlags view (splitSpace gq)) = true then gs
          else gsSet gs gq
            (setKV (List.map (fun n => (n, false)) (splitSpace gq)) fd.name fd.changed)).map
          (fun p => p.1)), hasAllFlags view (splitSpace k) = true
      split
      · exact hinv
      · rename_i hcond
        have hall : hasAllFlags view (splitSpace gq) = true := by
          cases hx : hasAllFlags view (splitSpace gq)
          · rw [hx] at hcond; simp at hcond
          · rfl
        intro k hk
        rcases keys_gsSet_sub hk with h | rfl
        · exact hinv k h
        · exact hall
    · show ∀ k ∈ (gsSet gs gq (setKV m fd.name fd.changed)).map (fun p => p.1),
        hasAllFlags view (splitSpace k) = true
      intro k hk
      rcases keys_gsSet_sub hk with h | rfl
      · exact hinv k h
      · exact hinv k (gsLookup_mem_keys hgsl)

theorem processFGA_keys {view : List FlagDef} {fd : FlagDef} {key : String} {gs : GroupStatus}
    (hinv : ∀ k ∈ gs.map (fun p => p.1), hasAllFlags view (splitSpace k) = true) :
    ∀ k ∈ (processFlagGroupAnnot view fd key gs).map (fun p => p.1),
      hasAllFlags view (splitSpace k) = true := by
  unfold processFlagGroupAnnot
  cases hann : annLookup fd key with
  | none => exact hinv
  | some groupInfo => exact fga_fold_keys view fd groupInfo gs hinv

theorem build_keys (key : String) (view : List FlagDef) :
    ∀ k ∈ (singleGroupBuild key view).map (fun p => p.1),
      hasAllFlags view (splitSpace k) = true := by
  unfold singleGroupBuild
  suffices h : ∀ (l : List FlagDef) (gs : GroupStatus),
      (∀ k ∈ gs.map (fun p => p.1), hasAllFlags view (splitSpace k) = true) →
      ∀ k ∈ ((l.foldl (fun t f => processFlagGroupAnnot view f key t) gs).map (fun p => p.1)),
        hasAllFlags view (splitSpace k) = true
    from h view [] (by simp)
  intro l
  induction l with
  | nil => intro gs hinv; exact hinv
  | cons fd rest ih =>
    intro gs hinv
    rw [List.foldl_cons]
    exact ih _ (processFGA_keys hinv)

theorem hasAllFlags_mem {view : List FlagDef} {ns : List String}
    (h : hasAllFlags view ns = true) : ∀ n ∈ ns, n ∈ namesOf view := by
  unfold hasAllFlags at h
  rw [List.all_eq_true] at h
  intro n hn
  exact lookupFlag_isSome_iff.mp (h n hn)

theorem setHidden_of_pres {fs : List FlagDef} {n : String} (h : n ∈ namesOf fs) :
    setHidden fs n =
      some (fs.map (fun f => if f.name == n then { f with hidden := true } else f)) := by
  unfold setHidden
  cases hlk : lookupFlag fs n with
  | none =>
    exfalso
    have := lookupFlag_isSome_iff.mpr h
    rw [hlk] at this
    simp at this
  | some f => rfl

theorem hideFold_spec :
    ∀ (l : List String) (flagName : String) (fs : List FlagDef),
      (∀ n ∈ l, n ∈ namesOf fs) →
      ∃ fs', l.foldl (fun acc n => acc.bind
            (fun fs => if n == flagName then some fs else setHidden fs n)) (some fs) = some fs'
        ∧ namesOf fs' = namesOf fs
        ∧ (∀ k, (¬k ∈ l ∨ k = flagName) → lookupFlag fs' k = lookupFlag fs k)
        ∧ (∀ n ∈ l, n ≠ flagName → (lookupFlag fs' n).map (fun f => f.hidden) = some true) := by
  intro l
  induction l with
  | nil =>
    intro flagName fs _
    exact ⟨fs, rfl, rfl, fun k _ => rfl, fun n h => by simp at h⟩
  | cons n rest ih =>
    intro flagName fs hl
    by_cases hnf : (n == flagName) = true
    · have hnf' : n = flagName := by rwa [beq_iff_eq] at hnf
      obtain ⟨fs', h1, h2, h3, h4⟩ := ih flagName fs
        (fun n' hn' => hl n' (List.mem_cons_of_mem _ hn'))
      refine ⟨fs', ?_, h2, ?_, ?_⟩
      · rw [List.foldl_cons]
        simpa [hnf] using h1
      · intro k hk
        refine h3 k ?_
        rcases hk with hk | hk
        · exact Or.inl (fun hr => hk (List.mem_cons_of_mem _ hr))
        · exact Or.inr hk
      · intro n' hn' hne
        rcases List.mem_cons.mp hn' with rfl | hr
        · exact absurd hnf' hne
        · exact h4 n' hr hne
    · have hb : (n == flagName) = false := by
        cases hx : (n == flagName)
        · rfl
        · exact absurd hx hnf
      have hnf2 : n ≠ flagName := by
        intro he
        rw [he] at hb
        simp at hb
      have hpres : n ∈ namesOf fs := hl n (List.mem_cons_self _ _)
      have htname : ∀ f : FlagDef,
          ((fun f => if f.name == n then { f with hidden := true } else f) f).name = f.name := by
        intro f
        by_cases hx : (f.name == n) = true <;> simp [hx]
      have hnames : namesOf (fs.map (fun f => if f.name == n then { f with hidden := true } else f))
          = namesOf fs := namesOf_map_pres htname fs
      obtain ⟨fs', h1, h2, h3, h4⟩ := ih flagName
        (fs.map (fun f => if f.name == n then { f with hidden := true } else f))
        (fun n' hn' => by rw [hnames]; exact hl n' (List.mem_cons_of_mem _ hn'))
      refine ⟨fs', ?_, by rw [h2, hnames], ?_, ?_⟩
      · rw [List.foldl_cons]
        simpa [hb, setHidden_of_pres hpres] using h1
      · intro k hk
        have hkn : k ≠ n := by
          rcases hk with hk | rfl
          · intro he
            exact hk (he ▸ List.mem_cons_self _ _)
          · exact fun he => hnf2 he.symm
        have hk' : (¬k ∈ rest ∨ k = flagName) := by
          rcases hk with hk | hk
          · exact Or.inl (fun hr => hk (List.mem_cons_of_mem _ hr))
          · exact Or.inr hk
        rw [h3 k hk']
        rw [lookupFlag_map_pres htname fs k]
        cases hlk : lookupFlag fs k with
        | none => rfl
        | some f =>
          have hfk : f.name = k := lookupFlag_name hlk
          have hfn : (f.name == n) = false := by
            rw [beq_eq_false_iff_ne, hfk]
            exact hkn
          have ht : (if (f.name == n) = true then
              ({ f with hidden := true } : FlagDef) else f) = f :=
            if_neg (by rw [hfn]; exact Bool.false_ne_true)
          simp only [Option.map_some']
          rw [ht]
      · intro n' hn' hne
        rcases List.mem_cons.mp hn' with rfl | hr
        · by_cases hnr : n' ∈ rest
          · exact h4 n' hnr hne
          · rw [h3 n' (Or.inl hnr)]
            rw [lookupFlag_map_pres htname fs n']
            cases hlk : lookupFlag fs n' with
            | none =>
              exfalso
              have := lookupFlag_isSome_iff.mpr hpres
              rw [hlk] at this
              simp at this
            | some f =>
              have hfn : (f.name == n') = true := by
                rw [beq_iff_eq]
                exact lookupFlag_name hlk
              have ht : (if (f.name == n') = true then
                  ({ f with hidden := true } : FlagDef) else f)
                  = { f with hidden := true } := if_pos hfn
              simp only [Option.map_some']
              rw [ht]
        · exact h4 n' hr hne

theorem buildFC_eq : buildGroupStatusesForCompletion = buildGroupStatuses := rfl

theorem innerMark_names :
    ∀ (pairs : MemberStatus) (ns : List String) (fs : List FlagDef),
      namesOf (pairs.foldl (fun fs p =>
        if p.2 then ns.foldl (fun fs n => markFlagRequired fs n) fs else fs) fs) = namesOf fs := by
  intro pairs
  induction pairs with
  | nil => intro ns fs; rfl
  | cons p rest ih =>
    intro ns fs
    rw [List.foldl_cons]
    by_cases hp : p.2 = true
    · rw [if_pos hp, ih, namesOf_markFold]
    · rw [if_neg hp, ih]

theorem enforceRequiredPass_names :
    ∀ (gs : GroupStatus) (fs : List FlagDef),
      namesOf (enforceRequiredPass gs fs) = namesOf fs := by
  intro gs
  unfold enforceRequiredPass
  induction gs with
  | nil => intro fs; rfl
  | cons e rest ih =>
    intro fs
    rw [List.foldl_cons, ih, innerMark_names]

theorem enforceOneRequiredPass_names :
    ∀ (gs : GroupStatus) (fs : List FlagDef),
      namesOf (enforceOneRequiredPass gs fs) = namesOf fs := by
  intro gs
  unfold enforceOneRequiredPass
  induction gs with
  | nil => intro fs; rfl
  | cons e rest ih =>
    intro fs
    rw [List.foldl_cons, ih]
    by_cases he : e.2.any (fun p => p.2) = true
    · rw [if_pos he]
    · rw [if_neg he, namesOf_markFold]

theorem innerMark_mono :
    ∀ (pairs : MemberStatus) (ns : List String) (fs : List FlagDef) (n : String),
      isMarkedRequired fs n = true →
      isMarkedRequired (pairs.foldl (fun fs p =>
        if p.2 then ns.foldl (fun fs m => markFlagRequired fs m) fs else fs) fs) n = true := by
  intro pairs
  induction pairs with
  | nil => intro ns fs n h; exact h
  | cons p rest ih =>
    intro ns fs n h
    rw [List.foldl_cons]
    by_cases hp : p.2 = true
    · rw [if_pos hp]
      exact ih ns _ n (markFold_mono ns fs n h)
    · rw [if_neg hp]
      exact ih ns fs n h

theorem innerMark_marks :
    ∀ (pairs : MemberStatus) (ns : List String) (fs : List FlagDef),
      (∃ p ∈ pairs, p.2 = true) →
      ∀ n ∈ ns, n ∈ namesOf fs →
      isMarkedRequired (pairs.foldl (fun fs p =>
        if p.2 then ns.foldl (fun fs m => markFlagRequired fs m) fs else fs) fs) n = true := by
  intro pairs
  induction pairs with
  | nil =>
    rintro ns fs ⟨p, hp, _⟩ n hn hpres
    simp at hp
  | cons q rest ih =>
    rintro ns fs ⟨p, hp, hset⟩ n hn hpres
    rw [List.foldl_cons]
    by_cases hq : q.2 = true
    · rw [if_pos hq]
      exact innerMark_mono rest ns _ n (markFold_marks ns fs n hn hpres)
    · rw [if_neg hq]
      rcases List.mem_cons.mp hp with rfl | hr
      · exact absurd hset hq
      · exact ih ns fs ⟨p, hr, hset⟩ n hn hpres

theorem exclusiveInnerInv (view : List FlagDef) (g : String)
    (hg : hasAllFlags view (splitSpace g) = true) :
    ∀ (ms : MemberStatus) (f : List FlagDef), namesOf f = namesOf view →
      ∃ f', ms.foldl (fun acc p =>
          if p.2 then acc.bind (fun fs => hideOthers fs g p.1) else acc) (some f) = some f'
        ∧ namesOf f' = namesOf view := by
  intro ms
  induction ms with
  | nil => intro f hf; exact ⟨f, rfl, hf⟩
  | cons p rest ih =>
    intro f hf
    rw [List.foldl_cons]
    by_cases hp : p.2 = true
    · rw [if_pos hp]
      have hmem : ∀ n ∈ splitSpace g, n ∈ namesOf f := by
        intro n hn
        rw [hf]
        exact hasAllFlags_mem hg n hn
      obtain ⟨f1, h1, h2, _, _⟩ := hideFold_spec (splitSpace g) p.1 f hmem
      have hb : (some f).bind (fun fs => hideOthers fs g p.1) = some f1 := h1
      rw [hb]
      exact ih f1 (by rw [h2, hf])
    · rw [if_neg hp]
      exact ih f hf

theorem exclusivePassInv (view : List FlagDef) :
    ∀ (gs : GroupStatus),
      (∀ k ∈ gs.map (fun p => p.1), hasAllFlags view (splitSpace k) = true) →
      ∀ f : List FlagDef, namesOf f = namesOf view →
      ∃ f', enforceExclusivePass gs f = some f' ∧ namesOf f' = namesOf view := by
  suffices h : ∀ (gs : GroupStatus),
      (∀ k ∈ gs.map (fun p => p.1), hasAllFlags view (splitSpace k) = true) →
      ∀ (acc : Option (List FlagDef)) (f : List FlagDef), acc = some f →
      namesOf f = namesOf view →
      ∃ f', gs.foldl (fun acc entry => entry.2.foldl
          (fun acc p => if p.2 then acc.bind (fun fs => hideOthers fs entry.1 p.1) else acc) acc)
          acc = some f' ∧ namesOf f' = namesOf view by
    intro gs hk f hf
    exact h gs hk (some f) f rfl hf
  intro gs
  induction gs with
  | nil =>
    rintro _ acc f rfl hf
    exact ⟨f, rfl, hf⟩
  | cons e rest ih =>
    rintro hk acc f rfl hf
    rw [List.foldl_cons]
    have hke : hasAllFlags view (splitSpace e.1) = true :=
      hk e.1 (List.mem_map_of_mem _ (List.mem_cons_self _ _))
    obtain ⟨f1, h1, h2⟩ := exclusiveInnerInv view e.1 hke e.2 f hf
    exact ih (fun k hkm => hk k (by rw [List.map_cons]; exact List.mem_cons_of_mem _ hkm))
      _ f1 h1 h2

theorem exclusiveInner_skip :
    ∀ (ms : MemberStatus) (g : String) (acc : Option (List FlagDef)),
      (∀ p ∈ ms, p.2 = false) →
      ms.foldl (fun acc p => if p.2 then acc.bind (fun fs => hideOthers fs g p.1) else acc) acc
        = acc := by
  intro ms
  induction ms with
  | nil => intro g acc _; rfl
  | cons p rest ih =>
    intro g acc hall
    rw [List.foldl_cons]
    have hp : p.2 = false := hall p (List.mem_cons_self _ _)
    rw [if_neg (by rw [hp]; exact Bool.false_ne_true)]
    exact ih g acc (fun q hq => hall q (List.mem_cons_of_mem _ hq))

theorem exclusiveInner_single (g n0 : String) (changed : String → Bool)
    (hc : changed n0 = true) :
    ∀ (ns : List String), n0 ∈ ns → ns.Nodup →
      (∀ n ∈ ns, n ≠ n0 → changed n = false) →
      ∀ fs : List FlagDef,
        ((ns.map (fun n => (n, changed n))).foldl
          (fun acc p => if p.2 then acc.bind (fun fs2 => hideOthers fs2 g p.1) else acc)
          (some fs))
        = hideOthers fs g n0 := by
  intro ns
  induction ns with
  | nil => intro h; simp at h
  | cons n rest ih =>
    intro hmem hnd hothers fs
    rw [List.map_cons, List.foldl_cons]
    rcases List.mem_cons.mp hmem with rfl | hr
    · rw [if_pos hc]
      have hb : (some fs).bind (fun fs2 => hideOthers fs2 g n0) = hideOthers fs g n0 := rfl
      rw [hb]
      have hallf : ∀ p ∈ rest.map (fun n => (n, changed n)), p.2 = false := by
        rintro p hp
        obtain ⟨m, hm, rfl⟩ := List.mem_map.mp hp
        have hmn : m ≠ n0 := by
          intro he
          rw [he] at hm
          exact (List.nodup_cons.mp hnd).1 hm
        exact hothers m (List.mem_cons_of_mem _ hm) hmn
      exact exclusiveInner_skip _ g _ hallf
    · have hne : n ≠ n0 := by
        intro he
        exact (List.nodup_cons.mp hnd).1 (he ▸ hr)
      have hn : changed n = false := hothers n (List.mem_cons_self _ _) hne
      rw [if_neg (by simp [hn])]
      exact ih hr (List.nodup_cons.mp hnd).2
        (fun m hm hmne => hothers m (List.mem_cons_of_mem _ hm) hmne) fs

theorem namesOf_singleGroupView (key g : String) (ns : List String) (changed : String → Bool) :
    namesOf (singleGroupView key g ns changed) = ns := by
  unfold namesOf singleGroupView
  rw [List.map_map]
  exact List.map_id ns

/-- C3: amended. For every command the completion-time flag-group pass
completes without error (the mutually-exclusive hiding never dereferences
an absent flag). For a single required-together group with at least one
member set, every member of the group ends marked required. For a single
one-required group, the members are all marked required exactly when NO
member is set — not, as the claim states, when at least one is (refuted
by the accompanying counterexample). For a single mutually-exclusive
group with exactly one member set, every other member ends hidden while
the set member's flag entry is left untouched (so it stays visible). -/
theorem enforceFlagGroupsForCompletion_spec :
    (∀ c : Command, (enforceFlagGroupsForCompletion c).isSome = true) ∧
    (∀ (g : String) (ns : List String) (changed : String → Bool) (fs' : List FlagDef),
      splitSpace g = ns → ns ≠ [] → ns.Nodup →
      (∃ n ∈ ns, changed n = true) →
      enforceFlagGroupsForCompletion (groupCmd requiredAsGroupAnnot g ns changed)
        = some fs' →
      ∀ n ∈ ns, isMarkedRequired fs' n = true) ∧
    (∀ (g : String) (ns : List String) (changed : String → Bool) (fs' : List FlagDef),
      splitSpace g = ns → ns ≠ [] → ns.Nodup →
      (∀ n ∈ ns, changed n = false) →
      enforceFlagGroupsForCompletion (groupCmd oneRequiredAnnot g ns changed)
        = some fs' →
      ∀ n ∈ ns, isMarkedRequired fs' n = true) ∧
    (∀ (g : String) (ns : List String) (changed : String → Bool) (n0 : String)
        (fs' : List FlagDef),
      splitSpace g = ns → ns ≠ [] → ns.Nodup →
      n0 ∈ ns → changed n0 = true → (∀ n ∈ ns, n ≠ n0 → changed n = false) →
      enforceFlagGroupsForCompletion (groupCmd mutuallyExclusiveAnnot g ns changed)
        = some fs' →
      (∀ n ∈ ns, n ≠ n0 → (lookupFlag fs' n).map (fun f => f.hidden) = some true) ∧
      lookupFlag fs' n0
        = lookupFlag (groupCmd mutuallyExclusiveAnnot g ns changed).flags n0) := by
  refine ⟨?_, ?_, ?_, ?_⟩
  · intro c
    unfold enforceFlagGroupsForCompletion
    by_cases hdfp : c.disableFlagParsing = true
    · rw [if_pos hdfp]
      rfl
    · rw [if_neg hdfp]
      show (enforceExclusivePass (buildGroupStatusesForCompletion c.flags).2.2
          (enforceOneRequiredPass (buildGroupStatusesForCompletion c.flags).2.1
            (enforceRequiredPass (buildGroupStatusesForCompletion c.flags).1 c.flags))).isSome
          = true
      have hkeys : ∀ k ∈ ((buildGroupStatusesForCompletion c.flags).2.2).map (fun p => p.1),
          hasAllFlags c.flags (splitSpace k) = true := by
        rw [buildFC_eq, buildGroupStatuses_proj]
        exact build_keys mutuallyExclusiveAnnot c.flags
      have hnm : namesOf (enforceOneRequiredPass (buildGroupStatusesForCompletion c.flags).2.1
          (enforceRequiredPass (buildGroupStatusesForCompletion c.flags).1 c.flags))
          = namesOf c.flags := by
        rw [enforceOneRequiredPass_names, enforceRequiredPass_names]
      obtain ⟨f', hf', _⟩ := exclusivePassInv c.flags _ hkeys _ hnm
      rw [hf']
      rfl
  · intro g ns changed fs' hsplit hne hnd hset henf n hn
    have hcfg := singleGroupView_config requiredAsGroupAnnot g ns changed hsplit hne hnd
    have hbuild :
        buildGroupStatusesForCompletion (singleGroupView requiredAsGroupAnnot g ns changed)
        = ([(g, ns.map (fun n => (n, changed n)))], [], []) := by
      rw [buildFC_eq, buildGroupStatuses_proj]
      rw [singleGroupBuild_eq hcfg]
      rw [singleGroupBuild_empty (@singleGroupView_other_none requiredAsGroupAnnot
            oneRequiredAnnot g ns changed (by decide)),
          singleGroupBuild_empty (@singleGroupView_other_none requiredAsGroupAnnot
            mutuallyExclusiveAnnot g ns changed (by decide))]
    have henf3 : enforceFlagGroupsForCompletion (groupCmd requiredAsGroupAnnot g ns changed)
        = some (enforceRequiredPass [(g, ns.map (fun n => (n, changed n)))]
            (singleGroupView requiredAsGroupAnnot g ns changed)) := by
      have henf2 : enforceFlagGroupsForCompletion (groupCmd requiredAsGroupAnnot g ns changed)
          = enforceExclusivePass
              (buildGroupStatusesForCompletion
                (singleGroupView requiredAsGroupAnnot g ns changed)).2.2
              (enforceOneRequiredPass
                (buildGroupStatusesForCompletion
                  (singleGroupView requiredAsGroupAnnot g ns changed)).2.1
                (enforceRequiredPass
                  (buildGroupStatusesForCompletion
                    (singleGroupView requiredAsGroupAnnot g ns changed)).1
                  (singleGroupView requiredAsGroupAnnot g ns changed))) := rfl
      rw [henf2, hbuild]
      rfl
    rw [henf] at henf3
    have hfs := Option.some.inj henf3
    rw [hfs]
    have hstep : enforceRequiredPass [(g, ns.map (fun n => (n, changed n)))]
        (singleGroupView requiredAsGroupAnnot g ns changed)
        = (ns.map (fun n => (n, changed n))).foldl
            (fun fs p => if p.2 then (splitSpace g).foldl (fun fs n => markFlagRequired fs n) fs
              else fs)
            (singleGroupView requiredAsGroupAnnot g ns changed) := rfl
    rw [hstep, hsplit]
    obtain ⟨n1, hn1, hc1⟩ := hset
    refine innerMark_marks (ns.map (fun n => (n, changed n))) ns
      (singleGroupView requiredAsGroupAnnot g ns changed)
      ⟨(n1, changed n1), List.mem_map_of_mem _ hn1, hc1⟩ n hn ?_
    rw [namesOf_singleGroupView]
    exact hn
  · intro g ns changed fs' hsplit hne hnd hzero henf n hn
    have hcfg := singleGroupView_config oneRequiredAnnot g ns changed hsplit hne hnd
    have hbuild :
        buildGroupStatusesForCompletion (singleGroupView oneRequiredAnnot g ns changed)
        = ([], [(g, ns.map (fun n => (n, changed n)))], []) := by
      rw [buildFC_eq, buildGroupStatuses_proj]
      rw [singleGroupBuild_eq hcfg]
      rw [singleGroupBuild_empty (@singleGroupView_other_none oneRequiredAnnot
            requiredAsGroupAnnot g ns changed (by decide)),
          singleGroupBuild_empty (@singleGroupView_other_none oneRequiredAnnot
            mutuallyExclusiveAnnot g ns changed (by decide))]
    have henf3 : enforceFlagGroupsForCompletion (groupCmd oneRequiredAnnot g ns changed)
        = some (enforceOneRequiredPass [(g, ns.map (fun n => (n, changed n)))]
            (singleGroupView oneRequiredAnnot g ns changed)) := by
      have henf2 : enforceFlagGroupsForCompletion (groupCmd oneRequiredAnnot g ns changed)
          = enforceExclusivePass
              (buildGroupStatusesForCompletion
                (singleGroupView oneRequiredAnnot g ns changed)).2.2
              (enforceOneRequiredPass
                (buildGroupStatusesForCompletion
                  (singleGroupView oneRequiredAnnot g ns changed)).2.1
                (enforceRequiredPass
                  (buildGroupStatusesForCompletion
                    (singleGroupView oneRequiredAnnot g ns changed)).1
                  (singleGroupView oneRequiredAnnot g ns changed))) := rfl
      rw [henf2, hbuild]
      rfl
    rw [henf] at henf3
    have hfs := Option.some.inj henf3
    rw [hfs]
    have hany : ((ns.map (fun n => (n, changed n))).any (fun p => p.2)) = false := by
      cases hx : (ns.map (fun n => (n, changed n))).any (fun p => p.2)
      · rfl
      · exfalso
        obtain ⟨p, hp, hp2⟩ := List.any_eq_true.mp hx
        obtain ⟨m, hm, rfl⟩ := List.mem_map.mp hp
        have hp2' : changed m = true := hp2
        rw [hzero m hm] at hp2'
        exact Bool.noConfusion hp2'
    have hstep : enforceOneRequiredPass [(g, ns.map (fun n => (n, changed n)))]
        (singleGroupView oneRequiredAnnot g ns changed)
        = (if ((ns.map (fun n => (n, changed n))).any (fun p => p.2)) = true
            then (singleGroupView oneRequiredAnnot g ns changed)
            else (splitSpace g).foldl (fun fs n => markFlagRequired fs n)
              (singleGroupView oneRequiredAnnot g ns changed)) := rfl
    rw [hstep, if_neg (by rw [hany]; exact Bool.false_ne_true), hsplit]
    refine markFold_marks ns _ n hn ?_
    rw [namesOf_singleGroupView]
    exact hn
  · intro g ns changed n0 fs' hsplit hne hnd hmem hc hothers henf
    have hcfg := singleGroupView_config mutuallyExclusiveAnnot g ns changed hsplit hne hnd
    have hbuild :
        buildGroupStatusesForCompletion (singleGroupView mutuallyExclusiveAnnot g ns changed)
        = ([], [], [(g, ns.map (fun n => (n, changed n)))]) := by
      rw [buildFC_eq, buildGroupStatuses_proj]
      rw [singleGroupBuild_eq hcfg]
      rw [singleGroupBuild_empty (@singleGroupView_other_none mutuallyExclusiveAnnot
            requiredAsGroupAnnot g ns changed (by decide)),
          singleGroupBuild_empty (@singleGroupView_other_none mutuallyExclusiveAnnot
            oneRequiredAnnot g ns changed (by decide))]
    have henf3 : enforceFlagGroupsForCompletion (groupCmd mutuallyExclusiveAnnot g ns changed)
        = hideOthers (singleGroupView mutuallyExclusiveAnnot g ns changed) g n0 := by
      have henf2 : enforceFlagGroupsForCompletion
            (groupCmd mutuallyExclusiveAnnot g ns changed)
          = enforceExclusivePass
              (buildGroupStatusesForCompletion
                (singleGroupView mutuallyExclusiveAnnot g ns changed)).2.2
              (enforceOneRequiredPass
                (buildGroupStatusesForCompletion
                  (singleGroupView mutuallyExclusiveAnnot g ns changed)).2.1
                (enforceRequiredPass
                  (buildGroupStatusesForCompletion
                    (singleGroupView mutuallyExclusiveAnnot g ns changed)).1
                  (singleGroupView mutuallyExclusiveAnnot g ns changed))) := rfl
      rw [henf2, hbuild]
      show enforceExclusivePass [(g, ns.map (fun n => (n, changed n)))]
          (singleGroupView mutuallyExclusiveAnnot g ns changed)
        = hideOthers (singleGroupView mutuallyExclusiveAnnot g ns changed) g n0
      have hstep : enforceExclusivePass [(g, ns.map (fun n => (n, changed n)))]
          (singleGroupView mutuallyExclusiveAnnot g ns changed)
          = (ns.map (fun n => (n, changed n))).foldl
              (fun acc p => if p.2 then acc.bind (fun fs2 => hideOthers fs2 g p.1) else acc)
              (some (singleGroupView mutuallyExclusiveAnnot g ns changed)) := rfl
      rw [hstep]
      exact exclusiveInner_single g n0 changed hc ns hmem hnd hothers _
    have hview : ∀ m ∈ ns,
        m ∈ namesOf (singleGroupView mutuallyExclusiveAnnot g ns changed) := by
      intro m hm
      rw [namesOf_singleGroupView]
      exact hm
    obtain ⟨fr, h1, h2, h3, h4⟩ := hideFold_spec ns n0
      (singleGroupView mutuallyExclusiveAnnot g ns changed) hview
    have hho : hideOthers (singleGroupView mutuallyExclusiveAnnot g ns changed) g n0
        = some fr := by
      unfold hideOthers
      rw [hsplit]
      exact h1
    rw [hho] at henf3
    rw [henf] at henf3
    have hfs := Option.some.inj henf3
    constructor
    · intro n hn hne
      rw [hfs]
      exact h4 n hn hne
    · rw [hfs]
      exact h3 n0 (Or.inr rfl)

/-- Counterexample to the claimed one-required behaviour: on a
one-required group `"a b"` whose member `a` is set and `b` is not, the
completion pass succeeds but does NOT mark `b` required — it only marks
one-required members when no member at all is set. -/
theorem enforceFlagGroups_oneRequired_cex :
    (enforceFlagGroupsForCompletion c3CexCmd).map (fun fs => isMarkedRequired fs "b")
      = some false := by decide

/-- Concrete exercises of the amended completion-pass theorem: a
required-together group with `a` set ends with `b` marked required, a
one-required group with nothing set ends with `b` marked required, and a
mutually-exclusive group with `a` set ends with `b` hidden. -/
theorem enforceFlagGroupsForCompletion_spec_witness :
    (enforceFlagGroupsForCompletion
        (groupCmd requiredAsGroupAnnot "a b" ["a", "b"] (fun s => s == "a"))).map
        (fun fs => isMarkedRequired fs "b") = some true
    ∧ (enforceFlagGroupsForCompletion
        (groupCmd oneRequiredAnnot "a b" ["a", "b"] (fun _ => false))).map
        (fun fs => isMarkedRequired fs "b") = some true
    ∧ (enforceFlagGroupsForCompletion
        (groupCmd mutuallyExclusiveAnnot "a b" ["a", "b"] (fun s => s == "a"))).map
        (fun fs => (lookupFlag fs "b").map (fun f => f.hidden)) = some (some true) := by
  refine ⟨?_, ?_, ?_⟩
  · cases henf : enforceFlagGroupsForCompletion
        (groupCmd requiredAsGroupAnnot "a b" ["a", "b"] (fun s => s == "a")) with
    | none =>
      have h0 := enforceFlagGroupsForCompletion_spec.1
        (groupCmd requiredAsGroupAnnot "a b" ["a", "b"] (fun s => s == "a"))
      rw [henf] at h0
      exact Bool.noConfusion h0
    | some fs =>
      have hm := enforceFlagGroupsForCompletion_spec.2.1 "a b" ["a", "b"]
        (fun s => s == "a") fs (by decide) (by decide) (by decide)
        ⟨"a", by decide, by decide⟩ henf "b" (by decide)
      simp only [Option.map_some']
      rw [hm]
  · cases henf : enforceFlagGroupsForCompletion
        (groupCmd oneRequiredAnnot "a b" ["a", "b"] (fun _ => false)) with
    | none =>
      have h0 := enforceFlagGroupsForCompletion_spec.1
        (groupCmd oneRequiredAnnot "a b" ["a", "b"] (fun _ => false))
      rw [henf] at h0
      exact Bool.noConfusion h0
    | some fs =>
      have hm := enforceFlagGroupsForCompletion_spec.2.2.1 "a b" ["a", "b"]
        (fun _ => false) fs (by decide) (by decide) (by decide)
        (fun _ _ => rfl) henf "b" (by decide)
      simp only [Option.map_some']
      rw [hm]
  · cases henf : enforceFlagGroupsForCompletion
        (groupCmd mutuallyExclusiveAnnot "a b" ["a", "b"] (fun s => s == "a")) with
    | none =>
      have h0 := enforceFlagGroupsForCompletion_spec.1
        (groupCmd mutuallyExclusiveAnnot "a b" ["a", "b"] (fun s => s == "a"))
      rw [henf] at h0
      exact Bool.noConfusion h0
    | some fs =>
      have hm := (enforceFlagGroupsForCompletion_spec.2.2.2 "a b" ["a", "b"]
        (fun s => s == "a") "a" fs (by decide) (by decide) (by decide)
        (by decide) (by decide) (by decide) henf).1 "b" (by decide) (by decide)
      simp only [Option.map_some']
      rw [hm]
